import Mathlib

/-!
Verification of the disk-health monitor's unit normalization, snapshot
delta, device classification, topology fallback and SMART extraction
logic, shallowly embedded from `disk-health-monitor-enhanced-CHS-Delta.py`.

Python floats are modelled as exact rational numbers carried as an
integer numerator with a positive natural denominator, with no implicit
normalization, so that every operation is plain integer arithmetic.
The decimal rounding performed by Python's fixed-precision formatting
(`f"{x:.2f}"`, `f"{x:.1f}"`, `round(x, 1)`) is round half to even on the
value, which this model reproduces exactly; the model has no signed zero
and no binary representation error for parsed decimal literals (the one
binary constant that matters, `273.15`, is modelled by its exact
binary64 value).
-/

/-- Exact fraction value: the model of a Python float.  Every constructor
used below keeps `den` positive. -/
structure Frac where
  num : Int
  den : Nat
deriving DecidableEq, Repr

namespace Frac

/-- Embed a natural number. -/
def ofNat (n : ℕ) : Frac := ⟨n, 1⟩

/-- Embed an integer. -/
def ofInt (n : ℤ) : Frac := ⟨n, 1⟩

/-- Multiply by a natural constant (the unit multipliers `1024^k`). -/
def scale (a : Frac) (k : ℕ) : Frac := ⟨a.num * k, a.den⟩

/-- Divide by a positive natural constant (the `size /= 1024` steps). -/
def divNat (a : Frac) (k : ℕ) : Frac := ⟨a.num, a.den * k⟩

/-- Difference of two fractions (the snapshot delta `new - old`). -/
def sub (a b : Frac) : Frac := ⟨a.num * b.den - b.num * a.den, a.den * b.den⟩

/-- Strict comparison, valid when both denominators are positive. -/
def blt (a b : Frac) : Bool := a.num * b.den < b.num * a.den

/-- Non-strict comparison, valid when both denominators are positive. -/
def ble (a b : Frac) : Bool := a.num * b.den ≤ b.num * a.den

/-- Truncation toward zero: Python `int(...)`. -/
def trunc (a : Frac) : Int :=
  if 0 ≤ a.num then a.num.ediv a.den else -((-a.num).ediv a.den)

/-- Round half to even of `a * s` for a positive natural scale `s`:
the rounding applied by Python's fixed-precision float formatting and
by `round(x, ndigits)`, at scale `10^ndigits`. -/
def rndScaled (a : Frac) (s : ℕ) : Int :=
  let n := a.num * s
  let d : Int := a.den
  let qt := n.ediv d
  let r := n.emod d
  if 2 * r < d then qt
  else if d < 2 * r then qt + 1
  else if qt % 2 = 0 then qt else qt + 1

/-- The rational value represented by a fraction. -/
def toRat (a : Frac) : ℚ := (a.num : ℚ) / (a.den : ℚ)

end Frac

/-! ### Character and digit utilities -/

/-- Python's `\s` / `str.strip()` whitespace (ASCII range). -/
def pyIsSpace (c : Char) : Bool :=
  c = ' ' ∨ c = '\t' ∨ c = '\n' ∨ c = '\x0d' ∨ c = '\x0b' ∨ c = '\x0c'

/-- Numeric value of a digit string (most significant first). -/
def digitsVal (l : List Char) : ℕ :=
  l.foldl (fun a c => 10 * a + (c.toNat - 48)) 0

/-- The character for a single digit. -/
def digitChar (n : ℕ) : Char := Char.ofNat (48 + n)

/-- Decimal rendering of a natural number, with explicit fuel (the fuel
is always at least the number itself, so it never runs out). -/
def renderNatAux : ℕ → ℕ → List Char
  | 0, _ => []
  | f + 1, n =>
    if n < 10 then [digitChar n]
    else renderNatAux f (n / 10) ++ [digitChar (n % 10)]

/-- Decimal rendering of a natural number (`str` on a nonnegative int). -/
def renderNat (n : ℕ) : List Char := renderNatAux (n + 1) n

/-- Decimal rendering of an integer (`str` on an int). -/
def renderInt (n : ℤ) : List Char :=
  if n < 0 then '-' :: renderNat n.natAbs else renderNat n.natAbs

/-- Two-digit zero-padded rendering of `n < 100` (the fractional part of
an `f"{x:.2f}"` rendering). -/
def pad2 (n : ℕ) : List Char :=
  if n < 10 then ['0', digitChar n] else renderNat n

/-! ### The unit normalizer: `format_size` (source lines 559-586)

`format_size(size_bytes)` divides by 1024 while the value is at least
1024 and a larger unit exists, escalates one more unit when the value
still reads at least 1000 in GB or MB, and renders with 2 decimals
below 10, 1 decimal below 100, and truncated to an integer otherwise. -/

/-- The canonical unit ladder `['B','KB','MB','GB','TB','PB']` by index. -/
def unitName : ℕ → List Char
  | 0 => ['B']
  | 1 => ['K', 'B']
  | 2 => ['M', 'B']
  | 3 => ['G', 'B']
  | 4 => ['T', 'B']
  | _ => ['P', 'B']

/-- The `while size >= 1024 and unit_index < len(units) - 1` loop of
`format_size`; the fuel (always started at 5) covers the bounded index. -/
def sizeLadder : ℕ → Frac → ℕ → Frac × ℕ
  | 0, s, i => (s, i)
  | f + 1, s, i =>
    if Frac.ble (Frac.ofNat 1024) s = true ∧ i < 5 then
      sizeLadder f (s.divNat 1024) (i + 1)
    else (s, i)

/-- `f"{size:.2f}"`: round half to even at two decimals and render. -/
def fmt2 (a : Frac) : List Char :=
  let n := a.rndScaled 100
  (if n < 0 then ['-'] else []) ++
    renderNat (n.natAbs / 100) ++ '.' :: pad2 (n.natAbs % 100)

/-- `f"{size:.1f}"`: round half to even at one decimal and render. -/
def fmt1 (a : Frac) : List Char :=
  let n := a.rndScaled 10
  (if n < 0 then ['-'] else []) ++
    renderNat (n.natAbs / 10) ++ '.' :: [digitChar (n.natAbs % 10)]

/-- `f"{int(size)}"`: truncate toward zero and render. -/
def fmtInt (a : Frac) : List Char := renderInt a.trunc

/-- `format_size` (source lines 559-586).  The final `except` branch
(`return str(size_bytes)`) is unreachable here because the argument is
already a parsed numeric value. -/
def format_size (a : Frac) : String :=
  let p := sizeLadder 5 a 0
  let p1 :=
    if p.2 = 3 ∧ Frac.ble (Frac.ofNat 1000) p.1 = true then
      (p.1.divNat 1024, p.2 + 1)
    else p
  let p2 :=
    if p1.2 = 2 ∧ Frac.ble (Frac.ofNat 1000) p1.1 = true then
      (p1.1.divNat 1024, p1.2 + 1)
    else p1
  if Frac.blt p2.1 (Frac.ofNat 10) = true then
    ⟨fmt2 p2.1 ++ ' ' :: unitName p2.2⟩
  else if Frac.blt p2.1 (Frac.ofNat 100) = true then
    ⟨fmt1 p2.1 ++ ' ' :: unitName p2.2⟩
  else
    ⟨fmtInt p2.1 ++ ' ' :: unitName p2.2⟩

/-! ### Parsing size strings -/

/-- The anchored match of `r"(\d+\.?\d*)\s*([KMGTP]?B)"` used by both
`normalize_size_unit` (line 542) and `parse_size_to_bytes` (line 963):
digits, an optional point with further digits, optional whitespace, and
a unit letter; returns the numeric value of group 1 and the byte
multiplier of the unit (`units[unit]`, source line 548).  `re.match`
anchors at the start only, so trailing text is ignored.
`unitMultOf` is the unit alternative `([KMGTP]?B)` combined with the
`units` table lookup: the two-letter units take priority exactly as the
greedy optional class does. -/
def unitMultOf (l : List Char) : Option ℕ :=
  match l with
  | 'K' :: 'B' :: _ => some 1024
  | 'M' :: 'B' :: _ => some (1024 ^ 2)
  | 'G' :: 'B' :: _ => some (1024 ^ 3)
  | 'T' :: 'B' :: _ => some (1024 ^ 4)
  | 'P' :: 'B' :: _ => some (1024 ^ 5)
  | 'B' :: _ => some 1
  | _ => none

def sizeMatchData (l : List Char) : Option (Frac × ℕ) :=
  let ds := l.takeWhile Char.isDigit
  let r1 := l.dropWhile Char.isDigit
  if ds = [] then none
  else
    let fr := match r1 with
      | '.' :: t => (t.takeWhile Char.isDigit, t.dropWhile Char.isDigit)
      | _ => ([], r1)
    let v : Frac := ⟨digitsVal ds * 10 ^ fr.1.length + digitsVal fr.1, 10 ^ fr.1.length⟩
    (unitMultOf (fr.2.dropWhile pyIsSpace)).map fun m => (v, m)

/-- Exponent part of a Python float literal: after `e`/`E`, an optional
sign and a nonempty digit string, then optional trailing whitespace. -/
def pyFloatExp (m : Int) (fl : ℕ) (r : List Char) : Option Frac :=
  let se := match r with
    | '-' :: r2 => (true, r2)
    | '+' :: r2 => (false, r2)
    | _ => (false, r)
  let es := se.2.takeWhile Char.isDigit
  let r3 := se.2.dropWhile Char.isDigit
  if es = [] ∨ ¬ r3.dropWhile pyIsSpace = [] then none
  else
    let e := digitsVal es
    if se.1 then some ⟨m, 10 ^ fl * 10 ^ e⟩
    else some ⟨m * 10 ^ e, 10 ^ fl⟩

/-- Python `float(s)` on finite decimal literals: optional surrounding
whitespace, optional sign, an integer and/or fractional digit part, and
an optional decimal exponent.  (The exotic accepted forms `inf`, `nan`
and digit-group underscores play no role in this development and are
not modelled.) -/
def pyFloatOfChars (l : List Char) : Option Frac :=
  let t := l.dropWhile pyIsSpace
  let sgn := match t with
    | '-' :: r => (true, r)
    | '+' :: r => (false, r)
    | _ => (false, t)
  let ip := sgn.2.takeWhile Char.isDigit
  let r1 := sgn.2.dropWhile Char.isDigit
  let fr := match r1 with
    | '.' :: t2 => (t2.takeWhile Char.isDigit, t2.dropWhile Char.isDigit)
    | _ => ([], r1)
  if ip = [] ∧ fr.1 = [] then none
  else
    let m : Int := digitsVal ip * 10 ^ fr.1.length + digitsVal fr.1
    let m := if sgn.1 then -m else m
    let withExp : Option Frac := match fr.2 with
      | 'e' :: r2 => pyFloatExp m fr.1.length r2
      | 'E' :: r2 => pyFloatExp m fr.1.length r2
      | r2 => if r2.dropWhile pyIsSpace = [] then some ⟨m, 10 ^ fr.1.length⟩ else none
    withExp

/-! ### `normalize_size_unit`, `parse_size_to_bytes`, delta (source 534-557, 956-1000) -/

/-- The source's "not available" marker string. -/
def NOT_AVAILABLE : String := "N/A"

/-- The source's counter-reset marker string (line 998; the spec calls
this value `RESET`). -/
def RESET : String := "重置"

/-- `normalize_size_unit` (source lines 534-557): a falsy (empty) input
yields `"N/A"`; an input matching the size-string pattern is converted
to bytes and re-rendered by `format_size`; otherwise a plain numeric
input is rendered by `format_size`; anything else is returned
unchanged.  (Every unit the pattern can produce is a key of the `units`
table, so the fall-through after a pattern match cannot happen.) -/
def normalize_size_unit (s : String) : String :=
  if s = "" then NOT_AVAILABLE
  else
    match sizeMatchData s.data with
    | some (v, m) => format_size (v.scale m)
    | none =>
      match pyFloatOfChars s.data with
      | some v => format_size v
      | none => s

/-- `parse_size_to_bytes` (source lines 956-985): `None` for empty or
`"N/A"` input, the byte count for a size-pattern match, `None`
otherwise.  (The `return value` fallback for an unknown unit is
unreachable: the pattern only produces keys of `multipliers`.) -/
def parse_size_to_bytes (s : String) : Option Frac :=
  if s = "" ∨ s = "N/A" then none
  else (sizeMatchData s.data).map (fun p => p.1.scale p.2)

/-- `calculate_size_increment` (source lines 987-1000): parse both
values; `"N/A"` if either fails; the reset marker if the difference is
negative; else `normalize_size_unit(str(diff_bytes))`.  Since
`str(float)` round-trips and never contains a unit letter, that last
call always takes `format_size` on the numeric value, which is how it
is written here. -/
def calculate_size_increment (old_value new_value : String) : String :=
  match parse_size_to_bytes old_value, parse_size_to_bytes new_value with
  | some ob, some nb =>
    let diff := nb.sub ob
    if Frac.blt diff (Frac.ofNat 0) = true then RESET
    else format_size diff
  | _, _ => NOT_AVAILABLE

/-! ### `format_hours` (source lines 119-139) -/

/-- Python `int(s)`: optional surrounding whitespace, an optional sign
and a nonempty digit string (digit-group underscores not modelled). -/
def pyIntOfChars (l : List Char) : Option Int :=
  let t := (((l.dropWhile pyIsSpace).reverse).dropWhile pyIsSpace).reverse
  match t with
  | [] => none
  | c :: ds =>
    if c = '-' then
      if ds ≠ [] ∧ ds.all Char.isDigit then some (-(digitsVal ds : Int)) else none
    else if c = '+' then
      if ds ≠ [] ∧ ds.all Char.isDigit then some (digitsVal ds) else none
    else if (c :: ds).all Char.isDigit then some (digitsVal (c :: ds)) else none

/-- `" ".join(result)`: space-joined concatenation. -/
def joinSpace : List String → String
  | [] => ""
  | [s] => s
  | s :: rest => s ++ " " ++ joinSpace rest

/-- The component list built by `format_hours` from an integer hour
count: divmod by `365*24`, `30*24` and `24` in turn (Python divmod is
floor division, `Int.ediv`/`Int.emod` here), keeping the nonzero
components and keeping the hours also when nothing else was kept. -/
def format_hours_parts (h : Int) : List String :=
  let years := h.ediv (365 * 24)
  let h1 := h.emod (365 * 24)
  let months := h1.ediv (30 * 24)
  let h2 := h1.emod (30 * 24)
  let days := h2.ediv 24
  let hrs := h2.emod 24
  let r0 : List String := []
  let r1 := if 0 < years then r0 ++ [⟨renderInt years⟩ ++ "y"] else r0
  let r2 := if 0 < months then r1 ++ [⟨renderInt months⟩ ++ "m"] else r1
  let r3 := if 0 < days then r2 ++ [⟨renderInt days⟩ ++ "d"] else r2
  if 0 < hrs ∨ r3 = [] then r3 ++ [⟨renderInt hrs⟩ ++ "hrs"] else r3

/-- `format_hours` on an already-parsed integer hour count. -/
def format_hours_int (h : Int) : String :=
  joinSpace (format_hours_parts h)

/-- `format_hours` (source lines 119-139): parse the input as an
integer; on failure return the input unchanged. -/
def format_hours (hours_str : String) : String :=
  match pyIntOfChars hours_str.data with
  | some h => format_hours_int h
  | none => hours_str

/-! ### `classify_disk` (source lines 914-923) -/

/-- Substring containment (Python's `in` on strings). -/
def containsSeq (needle : List Char) : List Char → Bool
  | [] => needle.isPrefixOf []
  | c :: t => needle.isPrefixOf (c :: t) || containsSeq needle t

/-- Python `str.upper()` (ASCII). -/
def pyUpper (s : String) : String := ⟨s.data.map Char.toUpper⟩

/-- `classify_disk` (source lines 914-923): a virtualization marker in
the model wins; then an `nvme`-prefixed name; then an `HDD` raw type;
else the SAS/SATA SSD default. -/
def classify_disk (disk_name disk_type disk_model : String) : String :=
  if containsSeq "VMware".data disk_model.data = true ∨
      containsSeq "Virtual".data disk_model.data = true then "VIRTUAL"
  else if "nvme".data.isPrefixOf disk_name.data = true then "NVME_SSD"
  else if pyUpper disk_type = "HDD" then "SAS_HDD"
  else "SAS_SSD"

/-! ### NVMe / SATA temperature handling (source lines 617-626, 711-723) -/

/-- The exact binary64 value of the literal `273.15` (the subtraction
`int - 273.15` is exact in binary64 for the relevant range, so the
Python computation is this exact rational arithmetic). -/
def kelvinOffset : Frac := ⟨2402652809016115, 8796093022208⟩

/-- Render the tenth `n / 10` the way `str(round(x, 1))` renders it:
sign, integral part, one fractional digit. -/
def renderTenth (n : Int) : List Char :=
  (if n < 0 then ['-'] else []) ++
    renderNat (n.natAbs / 10) ++ '.' :: [digitChar (n.natAbs % 10)]

/-- The NVMe path's handling of an extracted Celsius integer (source
lines 617-626): a value above 200 is treated as Kelvin and replaced by
`round(temp - 273.15, 1)`; otherwise the matched text is stored
unchanged. -/
def nvme_temperature_value (t : ℕ) : String :=
  if 200 < t then
    ⟨renderTenth ((Frac.sub (Frac.ofNat t) kelvinOffset).rndScaled 10)⟩
  else ⟨renderNat t⟩

/-- The SAS/SATA path's handling of an extracted temperature integer
(source lines 711-723): the matched text is stored unchanged, with no
Kelvin reinterpretation. -/
def sata_temperature_value (t : ℕ) : String := ⟨renderNat t⟩

/-! ### Topology fallback: `get_pool_name_from_zfs` (source lines 461-503) -/

/-- Python `str.split(sep)` for a one-character separator: keeps empty
pieces, always returns at least one piece. -/
def splitOnChar (sep : Char) (l : List Char) : List (List Char) :=
  l.foldr
    (fun c acc =>
      if c = sep then [] :: acc
      else
        match acc with
        | a :: r => (c :: a) :: r
        | [] => [[c]])
    [[]]

/-- Remove trailing whitespace (the right half of `str.strip()`). -/
def dropTrailingWs (l : List Char) : List Char :=
  l.foldr (fun c acc => if acc = [] ∧ pyIsSpace c = true then [] else c :: acc) []

/-- Python `str.strip()`: remove leading and trailing whitespace. -/
def stripChars (l : List Char) : List Char :=
  dropTrailingWs (l.dropWhile pyIsSpace)

/-- Python `str.split()` with no separator: split on whitespace runs,
producing no empty tokens.  The fuel is the list length. -/
def pySplitWsAux : ℕ → List Char → List (List Char)
  | 0, _ => []
  | f + 1, l =>
    match l.dropWhile pyIsSpace with
    | [] => []
    | c :: t =>
      ((c :: t).takeWhile (fun x => ! pyIsSpace x)) ::
        pySplitWsAux f ((c :: t).dropWhile (fun x => ! pyIsSpace x))

/-- Python `str.split()` with no separator. -/
def pySplitWs (l : List Char) : List (List Char) :=
  pySplitWsAux (l.length + 1) l

/-- Insertion into the model of a Python dict: overwrite an existing
key in place, else append. -/
def dictInsert (m : List (String × String)) (k v : String) :
    List (String × String) :=
  if m.any (fun p => p.1 = k) then
    m.map (fun p => if p.1 = k then (k, v) else p)
  else m ++ [(k, v)]

/-- `disk_name.split('/')[-1]` guarded by `'/' in disk_name`
(source lines 492-493). -/
def lastPathComp (tok : List Char) : List Char :=
  if containsSeq ['/'] tok = true then (splitOnChar '/' tok).getLastD tok
  else tok

/-- One line of the `zpool status` parse (source lines 474-495): a
`pool:` header line updates the current pool; status/header/blank
lines (or lines before any header) are skipped; otherwise the line's
first token, unless it starts with the pool name or is a structural
keyword, is assigned to the current pool. -/
def zfs_line_step (st : Option (List Char) × List (String × String))
    (raw : List Char) : Option (List Char) × List (String × String) :=
  let line := stripChars raw
  if "pool:".data.isPrefixOf line = true then
    (some (stripChars (line.drop 5)), st.2)
  else if st.1 = none ∨ containsSeq "state:".data line = true ∨
      containsSeq "scan:".data line = true ∨
      containsSeq "config:".data line = true ∨ line = [] ∨
      "NAME".data.isPrefixOf line = true then
    st
  else
    match st.1, pySplitWs line with
    | some cur, tok :: _ =>
      if cur.isPrefixOf tok = true ∨ tok = "mirror".data ∨
          tok = "raidz1".data ∨ tok = "raidz2".data ∨
          tok = "raidz3".data then st
      else (st.1, dictInsert st.2 ⟨lastPathComp tok⟩ ⟨cur⟩)
    | _, _ => st

/-- `get_pool_name_from_zfs` (source lines 461-503): fold the line step
over `output.split('\n')` starting with no current pool and an empty
map. -/
def get_pool_name_from_zfs (output : String) : List (String × String) :=
  ((splitOnChar '\n' output.data).foldl zfs_line_step (none, [])).2

/-- The fallback composition in `process_disk_info` (source lines
1104-1109): when the primary topology source yielded no assignments,
use the `zpool status` text parse. -/
def resolve_disk_to_pool (primary : List (String × String))
    (zfs_output : String) : List (String × String) :=
  if primary = [] then get_pool_name_from_zfs zfs_output else primary

/-! ### SAS/SATA Data_Read / Data_Written extraction (source 681-886)

Scanning primitives reproducing the `re.search` semantics of the
patterns involved: leftmost start position, lazy `.*?` pieces realized
as earliest-continuation scans, greedy character classes realized as
maximal runs. -/

/-- Consume an exact literal. -/
def dropLit (pat l : List Char) : Option (List Char) :=
  if pat.isPrefixOf l = true then some (l.drop pat.length) else none

/-- Consume an exact literal, ASCII case-insensitively (`re.IGNORECASE`). -/
def dropLitCI (pat l : List Char) : Option (List Char) :=
  if (pat.map Char.toLower).isPrefixOf (l.map Char.toLower) = true then
    some (l.drop pat.length)
  else none

/-- Consume `\s+`: at least one whitespace character, maximal run. -/
def dropWs1 (l : List Char) : Option (List Char) :=
  match l with
  | c :: t => if pyIsSpace c then some (t.dropWhile pyIsSpace) else none
  | [] => none

/-- Consume `\d+`, returning the digit characters. -/
def takeDigits1 (l : List Char) : Option (List Char × List Char) :=
  let ds := l.takeWhile Char.isDigit
  if ds = [] then none else some (ds, l.dropWhile Char.isDigit)

/-- Consume `(\d+\.\d+)`, returning its numeric value. -/
def takeFloat1 (l : List Char) : Option (Frac × List Char) :=
  (takeDigits1 l).bind fun p1 =>
    match p1.2 with
    | '.' :: t =>
      (takeDigits1 t).map fun p2 =>
        (⟨digitsVal p1.1 * 10 ^ p2.1.length + digitsVal p2.1, 10 ^ p2.1.length⟩,
          p2.2)
    | _ => none

/-- Leftmost-position search: try the step at every suffix. -/
def scanRest (f : List Char → Option (List Char)) :
    List Char → Option (List Char)
  | [] => f []
  | c :: t =>
    match f (c :: t) with
    | some r => some r
    | none => scanRest f t

/-- Leftmost-position search returning a value. -/
def scanVal {α : Type} (f : List Char → Option α) : List Char → Option α
  | [] => f []
  | c :: t =>
    match f (c :: t) with
    | some r => some r
    | none => scanVal f t

/-- Leftmost-position search bounded to the current line (a lazy `.`
piece without `re.DOTALL` cannot cross a newline). -/
def scanValLine {α : Type} (f : List Char → Option α) :
    List Char → Option α
  | [] => f []
  | c :: t =>
    match f (c :: t) with
    | some r => some r
    | none => if c = '\n' then none else scanValLine f t

/-- Match of `Non-medium error count:\s+(\d+)` at one position,
returning the matched digit characters (source line 770). -/
def nonMediumStep (l : List Char) : Option (List Char) :=
  (dropLit "Non-medium error count:".data l).bind fun r1 =>
    (dropWs1 r1).bind fun r2 => (takeDigits1 r2).map (·.1)

/-- `re.search` of the non-medium error pattern. -/
def searchNonMedium (l : List Char) : Option (List Char) :=
  scanVal nonMediumStep l

/-- The tail of the section pattern shared by source lines 776 and 845:
`.*?Gigabytes\s+processed.*?errors\s*\n\s*read:.*?\n\s*write:` with
`re.DOTALL`, applied after the `Error counter log:` literal; returns
the rest after `write:`. -/
def sectTailA (l : List Char) : Option (List Char) :=
  (scanRest (fun s =>
      (dropLit "Gigabytes".data s).bind fun x =>
        (dropWs1 x).bind (dropLit "processed".data)) l).bind fun r1 =>
  (scanRest (fun s =>
      (dropLit "errors".data s).bind fun x =>
        if (x.takeWhile pyIsSpace).contains '\n' = true then
          dropLit "read:".data (x.dropWhile pyIsSpace)
        else none) r1).bind fun r2 =>
  scanRest (fun s =>
      match s with
      | '\n' :: t => dropLit "write:".data (t.dropWhile pyIsSpace)
      | _ => none) r2

/-- Length of a match of the source line 776 section pattern at this
position. -/
def sectLenA (l : List Char) : Option ℕ :=
  (dropLit "Error counter log:".data l).bind fun r0 =>
    (sectTailA r0).map fun r3 => l.length - r3.length

/-- `re.search` of the line 776 section pattern, returning the matched
text (`error_log_section.group(0)`). -/
def searchSectionA : List Char → Option (List Char)
  | [] => none
  | c :: t =>
    match sectLenA (c :: t) with
    | some n => some ((c :: t).take n)
    | none => searchSectionA t

/-- Length of a match of the source line 845 section pattern (the
line 776 pattern followed by `.*?\n`) at this position. -/
def sectLenB (l : List Char) : Option ℕ :=
  (dropLit "Error counter log:".data l).bind fun r0 =>
    (sectTailA r0).bind fun r3 =>
      (scanRest (fun s =>
          match s with
          | '\n' :: t => some t
          | _ => none) r3).map fun r4 => l.length - r4.length

/-- `re.search` of the line 845 section pattern, returning the matched
text. -/
def searchSectionB : List Char → Option (List Char)
  | [] => none
  | c :: t =>
    match sectLenB (c :: t) with
    | some n => some ((c :: t).take n)
    | none => searchSectionB t

/-- The `\[(\d+)\^(\d+)\s+bytes\]` unit marker of the error counter
log, as the byte multiplier it selects: `10^9` bytes columns are read
as GB, `10^12` as TB, anything else (or no marker) defaults to GB
(source lines 781-789). -/
def sectionUnitMult (sec : List Char) : ℕ :=
  match scanVal (fun l =>
      (dropLit "[".data l).bind fun r0 =>
      (takeDigits1 r0).bind fun p1 =>
      (dropLit "^".data p1.2).bind fun r1 =>
      (takeDigits1 r1).bind fun p2 =>
      (dropWs1 p2.2).bind fun r2 =>
      (dropLit "bytes]".data r2).map fun _ =>
        (digitsVal p1.1, digitsVal p2.1)) sec with
  | some (10, 9) => 1024 ^ 3
  | some (10, 12) => 1024 ^ 4
  | _ => 1024 ^ 3

/-- The continuation `processed\s+\[[^\]]+\]\s+uncorrected\s*\n` of the
per-row pattern at source lines 792 and 808 (`re.IGNORECASE`). -/
def processedTailA (l : List Char) : Option Unit :=
  (dropLitCI "processed".data l).bind fun r1 =>
  (dropWs1 r1).bind fun r2 =>
  (dropLit "[".data r2).bind fun r3 =>
    let inner := r3.takeWhile (fun c => ¬ c = ']')
    if inner = [] then none
    else
      match r3.drop inner.length with
      | ']' :: r4 =>
        (dropWs1 r4).bind fun r5 =>
        (dropLitCI "uncorrected".data r5).bind fun r6 =>
          if (r6.takeWhile pyIsSpace).contains '\n' = true then some ()
          else none
      | _ => none

/-- The lazy same-line `.*?` piece before `processed`: earliest
continuation within the line, returning the skipped characters (the
part of the row holding the data column). -/
def rowMid (acc : List Char) : List Char → Option (List Char)
  | [] => none
  | c :: t =>
    match processedTailA (c :: t) with
    | some _ => some acc.reverse
    | none => if c = '\n' then none else rowMid (c :: acc) t

/-- The extraction of one `read:`/`write:` row by the line 792/808
pattern: on a row match, the value is the first `(\d+\.\d+)` in the
part of the match before the first `[` (source lines 794-797), which
lies in the lazily skipped row text.  `some none` is a row match whose
row text holds no such number (the code then sets nothing). -/
def rowValueA (key : List Char) (sec : List Char) : Option (Option Frac) :=
  scanVal (fun l =>
    (dropLitCI key l).bind fun r0 =>
      (rowMid [] r0).map fun mid =>
        scanVal (fun m => (takeFloat1 m).map (·.1)) mid) sec

/-- `(\d+\.\d+)\s*$` with `re.MULTILINE`: a number whose line tail is
whitespace. -/
def eolAfterFloat (l : List Char) : Option Frac :=
  (takeFloat1 l).bind fun p =>
    if (p.2.takeWhile pyIsSpace).contains '\n' = true ∨
        p.2.dropWhile pyIsSpace = [] then some p.1
    else none

/-- The extraction of one row by the line 861/874 pattern
`read:.*?(\d+\.\d+)\s*$` (`re.MULTILINE`, case sensitive): the first
trailing-column number on a `read:`/`write:` line. -/
def rowValueB (key : List Char) (sec : List Char) : Option Frac :=
  scanVal (fun l =>
    (dropLit key l).bind fun r0 => scanValLine eolAfterFloat r0) sec

/-- The five integer columns and trailing `(\d+\.\d+)` of the fallback
pattern `(read|write):(?:\s+\d+){5}\s+(\d+\.\d+)` (source line 827). -/
def fallbackTail (l : List Char) : Option (Frac × List Char) :=
  (dropWs1 l).bind fun r1 => (takeDigits1 r1).bind fun p1 =>
  (dropWs1 p1.2).bind fun r2 => (takeDigits1 r2).bind fun p2 =>
  (dropWs1 p2.2).bind fun r3 => (takeDigits1 r3).bind fun p3 =>
  (dropWs1 p3.2).bind fun r4 => (takeDigits1 r4).bind fun p4 =>
  (dropWs1 p4.2).bind fun r5 => (takeDigits1 r5).bind fun p5 =>
  (dropWs1 p5.2).bind takeFloat1

/-- One candidate match of the fallback pattern; `true` marks a
`read:` row. -/
def fallbackStep (l : List Char) : Option ((Bool × Frac) × List Char) :=
  match dropLit "read:".data l with
  | some r => (fallbackTail r).map fun p => ((true, p.1), p.2)
  | none =>
    match dropLit "write:".data l with
    | some r => (fallbackTail r).map fun p => ((false, p.1), p.2)
    | none => none

/-- `re.findall` of the fallback pattern: leftmost, non-overlapping.
The fuel is the text length, which bounds the number of scan steps. -/
def findallFallback : ℕ → List Char → List (Bool × Frac)
  | 0, _ => []
  | f + 1, l =>
    match fallbackStep l with
    | some (v, rest) => v :: findallFallback f rest
    | none =>
      match l with
      | [] => []
      | _ :: t => findallFallback f t

/-- The slice of `get_sata_smart_data`'s result relevant to the
Data_Read / Data_Written extraction. -/
structure SataIoSlice where
  nonMediumErrors : Option String
  dataRead : Option String
  dataWritten : Option String
deriving DecidableEq, Repr

/-- The first table-shape extraction (source lines 776-822): on a
section match, read the unit marker and set `Data_Read` and
`Data_Written` from the matched rows.  The stored string is
`normalize_size_unit(f"{value} {unit}")`, which is `format_size` of
the value scaled by the unit multiplier (the rendered number parses
back to the same decimal). -/
def applySectionA (out : List Char) (st : SataIoSlice) : SataIoSlice :=
  match searchSectionA out with
  | none => st
  | some sec =>
    let mult := sectionUnitMult sec
    let st1 :=
      match rowValueA "read:".data sec with
      | some (some v) => { st with dataRead := some (format_size (v.scale mult)) }
      | _ => st
    match rowValueA "write:".data sec with
    | some (some v) => { st1 with dataWritten := some (format_size (v.scale mult)) }
    | _ => st1

/-- The regular-column-position fallback (source lines 824-837): when
`Data_Read` or `Data_Written` is still missing, fill the missing ones
from the `(read|write):(?:\s+\d+){5}\s+(\d+\.\d+)` rows, the value
taken as GB (`* 1024**3`) and passed through `normalize_size_unit`. -/
def applyFallback (out : List Char) (st : SataIoSlice) : SataIoSlice :=
  if st.dataRead = none ∨ st.dataWritten = none then
    (findallFallback (out.length + 1) out).foldl
      (fun s p =>
        if p.1 = true ∧ s.dataRead = none then
          { s with dataRead := some (format_size (p.2.scale (1024 ^ 3))) }
        else if p.1 = false ∧ s.dataWritten = none then
          { s with dataWritten := some (format_size (p.2.scale (1024 ^ 3))) }
        else s)
      st
  else st

/-- The second, unconditional table-shape extraction (source lines
845-885): on a section match, set `Data_Read` / `Data_Written` from
the trailing-column numbers, overwriting earlier values. -/
def applySectionB (out : List Char) (st : SataIoSlice) : SataIoSlice :=
  match searchSectionB out with
  | none => st
  | some sec =>
    let mult := sectionUnitMult sec
    let st1 :=
      match rowValueB "read:".data sec with
      | some v => { st with dataRead := some (format_size (v.scale mult)) }
      | none => st
    match rowValueB "write:".data sec with
    | some v => { st1 with dataWritten := some (format_size (v.scale mult)) }
    | none => st1

/-- The Data_Read / Data_Written / Non_Medium_Errors portion of
`get_sata_smart_data` (source lines 769-886) as the source is written:
the comment block at lines 774-775 notwithstanding, the first
table-shape extraction AND the regular-column fallback (lines
775-837) are indented inside `if non_medium_match:` and therefore run
only when a `Non-medium error count:` line was found; the second
table-shape extraction (lines 844-885) runs unconditionally. -/
def extract_sata_io (output : String) : SataIoSlice :=
  let out := output.data
  let nm := searchNonMedium out
  let st0 : SataIoSlice :=
    { nonMediumErrors := nm.map fun ds => (⟨ds⟩ : String)
      dataRead := none
      dataWritten := none }
  let st1 :=
    if nm.isSome = true then applyFallback out (applySectionA out st0)
    else st0
  applySectionB out st1

/-- Modelled from the spec: "A secondary regular-column-position
fallback is used if the primary table-shape match fails" — the
fallback applies whenever the table-shape extractions left the
attribute unset, independent of whether other attributes (such as the
non-medium error count) were extracted from the same text. -/
def extract_sata_io_claimed (output : String) : SataIoSlice :=
  let out := output.data
  let nm := searchNonMedium out
  let st0 : SataIoSlice :=
    { nonMediumErrors := nm.map fun ds => (⟨ds⟩ : String)
      dataRead := none
      dataWritten := none }
  applyFallback out (applySectionB out (applySectionA out st0))

/-- A SMART text whose `read:`/`write:` rows are in the regular column
layout the fallback pattern matches, with no `Error counter log:`
table header and no `Non-medium error count:` line. -/
def sataFallbackOnlyText : String :=
  "read:          0        0         0         0          0     45.678\nwrite:         0        0         0         0          0     12.5\n"

/-- The same rows with a `Non-medium error count:` line added. -/
def sataFallbackWithNonMediumText : String :=
  "Non-medium error count:   7\n" ++ sataFallbackOnlyText

/-! ### Spec-side definitions

These follow the specification's words (not the code) and are compared
with the embedded source functions by the refinement theorems. -/

/-- The duration format as the spec words it: years, months, days and
residual hours by the divmod chain with `365*24`, `30*24` and `24`;
only nonzero components, in that order, space-joined with suffixes
`y`, `m`, `d`, `hrs`; `0hrs` when all components are zero. -/
def specFormatDuration (h : ℕ) : String :=
  let y := h / (365 * 24)
  let m := h % (365 * 24) / (30 * 24)
  let d := h % (365 * 24) % (30 * 24) / 24
  let hr := h % (365 * 24) % (30 * 24) % 24
  if y = 0 ∧ m = 0 ∧ d = 0 ∧ hr = 0 then "0hrs"
  else
    joinSpace
      ((if y ≠ 0 then [(⟨renderNat y⟩ : String) ++ "y"] else []) ++
        (if m ≠ 0 then [(⟨renderNat m⟩ : String) ++ "m"] else []) ++
        (if d ≠ 0 then [(⟨renderNat d⟩ : String) ++ "d"] else []) ++
        (if hr ≠ 0 then [(⟨renderNat hr⟩ : String) ++ "hrs"] else []))

/-- The Kelvin reinterpretation as the spec words it: `value − 273.15`
to one decimal place; for an integer input this is exactly the tenth
`10*t − 2731` (the exact difference always ends in `.85`, and the
binary64 computation always lands just above the tie). -/
def specNvmeKelvin (t : ℕ) : String :=
  ⟨renderTenth (10 * (t : ℤ) - 2731)⟩

/-- Round half to even on a rational. -/
def qRndHE (x : ℚ) : ℤ :=
  if x - ⌊x⌋ < 1 / 2 then ⌊x⌋
  else if 1 / 2 < x - ⌊x⌋ then ⌊x⌋ + 1
  else if ⌊x⌋ % 2 = 0 then ⌊x⌋ else ⌊x⌋ + 1

/-- Truncation toward zero on a rational. -/
def qTrunc (x : ℚ) : ℤ := if x < 0 then -⌊-x⌋ else ⌊x⌋

/-- Fixed two-decimal rendering of a rational. -/
def qFmt2 (x : ℚ) : List Char :=
  let n := qRndHE (100 * x)
  (if n < 0 then ['-'] else []) ++
    renderNat (n.natAbs / 100) ++ '.' :: pad2 (n.natAbs % 100)

/-- Fixed one-decimal rendering of a rational. -/
def qFmt1 (x : ℚ) : List Char :=
  let n := qRndHE (10 * x)
  (if n < 0 then ['-'] else []) ++
    renderNat (n.natAbs / 10) ++ '.' :: [digitChar (n.natAbs % 10)]

/-- The canonical ladder index as the spec words it: the base-1024
magnitude of the byte count, capped at PB. -/
def ladderIdx (x : ℚ) : ℕ :=
  if x < 1024 then 0
  else if x < 1024 ^ 2 then 1
  else if x < 1024 ^ 3 then 2
  else if x < 1024 ^ 4 then 3
  else if x < 1024 ^ 5 then 4
  else 5

/-- The value and unit chosen by the spec's rendering rule: value in
the ladder unit, escalated one more unit when the value would read at
least 1000 in MB or GB. -/
def specPair (x : ℚ) : ℚ × ℕ :=
  let i := ladderIdx x
  let v := x / 1024 ^ i
  if (i = 2 ∨ i = 3) ∧ 1000 ≤ v then (v / 1024, i + 1) else (v, i)

/-- The size normalization as the spec words it: the ladder value and
unit, rendered with 2 decimals below 10, 1 decimal below 100, and as
a truncated integer otherwise. -/
def specFormatSize (x : ℚ) : String :=
  let p := specPair x
  if p.1 < 10 then ⟨qFmt2 p.1 ++ ' ' :: unitName p.2⟩
  else if p.1 < 100 then ⟨qFmt1 p.1 ++ ' ' :: unitName p.2⟩
  else ⟨renderInt (qTrunc p.1) ++ ' ' :: unitName p.2⟩

/-! ### Bridging lemmas: `Frac` operations against rational values -/

theorem Frac.toRat_ofNat (n : ℕ) : (Frac.ofNat n).toRat = n := by
  simp [Frac.ofNat, Frac.toRat]

theorem Frac.den_ofNat (n : ℕ) : (Frac.ofNat n).den = 1 := rfl

theorem Frac.toRat_scale (a : Frac) (k : ℕ) :
    (a.scale k).toRat = a.toRat * k := by
  simp only [Frac.scale, Frac.toRat]
  push_cast
  ring

theorem Frac.den_scale (a : Frac) (k : ℕ) : (a.scale k).den = a.den := rfl

theorem Frac.toRat_divNat (a : Frac) (k : ℕ) :
    (a.divNat k).toRat = a.toRat / k := by
  simp only [Frac.divNat, Frac.toRat]
  push_cast
  rw [div_div]

theorem Frac.den_divNat (a : Frac) (k : ℕ) : (a.divNat k).den = a.den * k := rfl

theorem Frac.toRat_sub (a b : Frac) (ha : 0 < a.den) (hb : 0 < b.den) :
    (a.sub b).toRat = a.toRat - b.toRat := by
  have ha' : (a.den : ℚ) ≠ 0 := by exact_mod_cast ha.ne'
  have hb' : (b.den : ℚ) ≠ 0 := by exact_mod_cast hb.ne'
  simp only [Frac.sub, Frac.toRat]
  push_cast
  field_simp
  ring

theorem Frac.den_sub (a b : Frac) : (a.sub b).den = a.den * b.den := rfl

theorem Frac.blt_iff (a b : Frac) (ha : 0 < a.den) (hb : 0 < b.den) :
    a.blt b = true ↔ a.toRat < b.toRat := by
  have ha' : (0 : ℚ) < (a.den : ℚ) := by exact_mod_cast ha
  have hb' : (0 : ℚ) < (b.den : ℚ) := by exact_mod_cast hb
  simp only [Frac.blt, Frac.toRat, decide_eq_true_eq]
  rw [div_lt_div_iff₀ ha' hb']
  constructor
  · intro h
    exact_mod_cast h
  · intro h
    exact_mod_cast h

theorem Frac.ble_iff (a b : Frac) (ha : 0 < a.den) (hb : 0 < b.den) :
    a.ble b = true ↔ a.toRat ≤ b.toRat := by
  have ha' : (0 : ℚ) < (a.den : ℚ) := by exact_mod_cast ha
  have hb' : (0 : ℚ) < (b.den : ℚ) := by exact_mod_cast hb
  simp only [Frac.ble, Frac.toRat, decide_eq_true_eq]
  rw [div_le_div_iff₀ ha' hb']
  constructor
  · intro h
    exact_mod_cast h
  · intro h
    exact_mod_cast h

theorem Frac.num_nonneg_iff (a : Frac) (ha : 0 < a.den) :
    0 ≤ a.num ↔ 0 ≤ a.toRat := by
  have ha' : (0 : ℚ) < (a.den : ℚ) := by exact_mod_cast ha
  simp only [Frac.toRat]
  rw [le_div_iff₀ ha', zero_mul]
  exact ⟨fun h => by exact_mod_cast h, fun h => by exact_mod_cast h⟩

theorem Frac.trunc_eq (a : Frac) (ha : 0 < a.den) :
    a.trunc = qTrunc a.toRat := by
  have hx : a.toRat = (a.num : ℚ) / (a.den : ℚ) := rfl
  by_cases h : 0 ≤ a.num
  · have hx0 : ¬ a.toRat < 0 := not_lt.2 ((a.num_nonneg_iff ha).1 h)
    rw [Frac.trunc, if_pos h, qTrunc, if_neg hx0, hx,
      Rat.floor_intCast_div_natCast a.num a.den]
    rfl
  · have hx0 : a.toRat < 0 := by
      by_contra hc
      exact h ((a.num_nonneg_iff ha).2 (not_lt.1 hc))
    rw [Frac.trunc, if_neg h, qTrunc, if_pos hx0]
    have hneg : -a.toRat = ((-a.num : ℤ) : ℚ) / (a.den : ℚ) := by
      rw [hx]
      push_cast
      ring
    rw [hneg, Rat.floor_intCast_div_natCast (-a.num) a.den]
    rfl

theorem Frac.rndScaled_eq (a : Frac) (s : ℕ) (ha : 0 < a.den) :
    a.rndScaled s = qRndHE (s * a.toRat) := by
  have hd0 : (0 : ℤ) < (a.den : ℤ) := by exact_mod_cast ha
  have hdq : (0 : ℚ) < (a.den : ℚ) := by exact_mod_cast ha
  set n : ℤ := a.num * s with hn
  set d : ℤ := (a.den : ℤ) with hd
  have hx : (s : ℚ) * a.toRat = (n : ℚ) / (d : ℚ) := by
    simp only [Frac.toRat, hn, hd]
    push_cast
    ring
  have hfl : ⌊(s : ℚ) * a.toRat⌋ = n.ediv d := by
    rw [hx, hd]
    exact_mod_cast Rat.floor_intCast_div_natCast n a.den
  have hdq' : (0 : ℚ) < (d : ℚ) := by exact_mod_cast hd0
  have hsplit : n = d * n.ediv d + n.emod d := (Int.ediv_add_emod n d).symm
  have hfrac : (s : ℚ) * a.toRat - ⌊(s : ℚ) * a.toRat⌋ = (n.emod d : ℚ) / (d : ℚ) := by
    have hcast : (n : ℚ) = (d : ℚ) * (n.ediv d : ℚ) + (n.emod d : ℚ) := by
      exact_mod_cast hsplit
    rw [hfl, hx, hcast]
    field_simp
  have hlt : (2 * n.emod d < d) ↔ ((s : ℚ) * a.toRat - ⌊(s : ℚ) * a.toRat⌋ < 1 / 2) := by
    rw [hfrac, div_lt_div_iff₀ hdq' (by norm_num : (0:ℚ) < 2)]
    constructor
    · intro h
      have h2 : ((2 * n.emod d : ℤ) : ℚ) < ((d : ℤ) : ℚ) := by exact_mod_cast h
      push_cast at h2
      linarith
    · intro h
      have h2 : ((2 * n.emod d : ℤ) : ℚ) < ((d : ℤ) : ℚ) := by push_cast; linarith
      exact_mod_cast h2
  have hgt : (d < 2 * n.emod d) ↔ (1 / 2 < (s : ℚ) * a.toRat - ⌊(s : ℚ) * a.toRat⌋) := by
    rw [hfrac, div_lt_div_iff₀ (by norm_num : (0:ℚ) < 2) hdq']
    constructor
    · intro h
      have h2 : ((d : ℤ) : ℚ) < ((2 * n.emod d : ℤ) : ℚ) := by exact_mod_cast h
      push_cast at h2
      linarith
    · intro h
      have h2 : ((d : ℤ) : ℚ) < ((2 * n.emod d : ℤ) : ℚ) := by push_cast; linarith
      exact_mod_cast h2
  simp only [Frac.rndScaled, qRndHE, ← hn, ← hd, hfl]
  rw [hfl] at hlt hgt
  by_cases h1 : 2 * n.emod d < d
  · rw [if_pos (hlt.1 h1), if_pos h1]
  · have h1' : ¬ ((s : ℚ) * a.toRat - (n.ediv d : ℚ) < 1 / 2) :=
      fun hh => h1 (hlt.2 hh)
    by_cases h2 : d < 2 * n.emod d
    · rw [if_neg h1', if_pos (hgt.1 h2), if_neg h1, if_pos h2]
    · have h2' : ¬ ((1 / 2 : ℚ) < (s : ℚ) * a.toRat - (n.ediv d : ℚ)) :=
        fun hh => h2 (hgt.2 hh)
      rw [if_neg h1', if_neg h2', if_neg h1, if_neg h2]

/-! ### Parse inversion lemmas -/

theorem sizeMatchData_some (l : List Char) (v : Frac) (m : ℕ)
    (h : sizeMatchData l = some (v, m)) :
    0 < v.den ∧ 0 ≤ v.num := by
  rw [sizeMatchData] at h
  by_cases hds : l.takeWhile Char.isDigit = []
  · rw [if_pos hds] at h
    exact absurd h (by simp)
  · rw [if_neg hds] at h
    simp only [Option.map_eq_some'] at h
    obtain ⟨m', _, h2⟩ := h
    have hv := congrArg Prod.fst h2
    simp only at hv
    rw [← hv]
    exact ⟨by positivity, by positivity⟩

theorem parse_size_to_bytes_some (s : String) (v : Frac)
    (h : parse_size_to_bytes s = some v) : 0 < v.den ∧ 0 ≤ v.num := by
  rw [parse_size_to_bytes] at h
  by_cases hs : s = "" ∨ s = "N/A"
  · rw [if_pos hs] at h
    exact absurd h (by simp)
  · rw [if_neg hs] at h
    simp only [Option.map_eq_some'] at h
    obtain ⟨⟨w, m⟩, hw, hv⟩ := h
    obtain ⟨hd, hn⟩ := sizeMatchData_some s.data w m hw
    rw [← hv]
    refine ⟨hd, ?_⟩
    simpa [Frac.scale] using mul_nonneg hn (Int.natCast_nonneg m)

/-! ### C1: delta semantics -/

/-- C1: `calculate_size_increment` parses both values with
`parse_size_to_bytes`; if either is unparseable the result is
`NOT_AVAILABLE`; if the current byte count is strictly below the
previous one the result is `RESET`, never a negative rendering;
otherwise the result is the normalized rendering of the byte
difference; previous `"10 TB"` with current `"2 TB"` yields `RESET`. -/
theorem delta_reset_semantics (p c : String) :
    ((parse_size_to_bytes p = none ∨ parse_size_to_bytes c = none) →
      calculate_size_increment p c = NOT_AVAILABLE)
  ∧ (∀ pb cb : Frac, parse_size_to_bytes p = some pb →
      parse_size_to_bytes c = some cb →
      ((cb.toRat < pb.toRat → calculate_size_increment p c = RESET)
        ∧ (pb.toRat ≤ cb.toRat →
            calculate_size_increment p c = format_size (cb.sub pb))))
  ∧ calculate_size_increment "10 TB" "2 TB" = RESET := by
  refine ⟨fun h => ?_, fun pb cb hp hc => ?_, by decide⟩
  · rw [calculate_size_increment]
    rcases h with h | h
    · rw [h]
    · rw [h]
      cases hpp : parse_size_to_bytes p <;> rfl
  · have hdp := (parse_size_to_bytes_some p pb hp).1
    have hdc := (parse_size_to_bytes_some c cb hc).1
    have hdd : 0 < (cb.sub pb).den := by
      rw [Frac.den_sub]
      positivity
    have hblt : Frac.blt (cb.sub pb) (Frac.ofNat 0) = true ↔ cb.toRat < pb.toRat := by
      rw [Frac.blt_iff _ _ hdd (by norm_num [Frac.ofNat]),
        Frac.toRat_sub cb pb hdc hdp, Frac.toRat_ofNat]
      push_cast
      constructor <;> intro hh <;> linarith
    constructor
    · intro hlt
      rw [calculate_size_increment, hp, hc]
      simp only [hblt.2 hlt, if_pos]
    · intro hle
      have hb : Frac.blt (cb.sub pb) (Frac.ofNat 0) = false := by
        rw [← Bool.not_eq_true, hblt]
        exact not_lt.2 hle
      rw [calculate_size_increment, hp, hc]
      simp only [hb]
      rfl

/-- Witness for C1 at concrete inputs. -/
theorem delta_reset_semantics_witness :
    calculate_size_increment "abc" "2 TB" = NOT_AVAILABLE
  ∧ calculate_size_increment "10 TB" "2 TB" = RESET
  ∧ calculate_size_increment "1 TB" "2 TB" =
      format_size (Frac.sub ⟨2 * 1024 ^ 4, 1⟩ ⟨1 * 1024 ^ 4, 1⟩) := by
  refine ⟨(delta_reset_semantics "abc" "2 TB").1 (Or.inl (by decide)),
    (delta_reset_semantics "10 TB" "2 TB").2.2, ?_⟩
  exact ((delta_reset_semantics "1 TB" "2 TB").2.1 ⟨1 * 1024 ^ 4, 1⟩ ⟨2 * 1024 ^ 4, 1⟩
    (by decide) (by decide)).2 (by norm_num [Frac.toRat])

/-! ### C5: the Kelvin heuristic -/

/-- The binary64 computation `round(t - 273.15, 1)` lands at exactly
the tenth `10*t − 2731`: the stored constant is slightly below 273.15,
so the rounding always resolves upward past the `.85` tie. -/
theorem kelvin_rndScaled (t : ℕ) :
    (Frac.sub (Frac.ofNat t) kelvinOffset).rndScaled 10 = 10 * (t : ℤ) - 2731 := by
  have hD : (0 : ℤ) < 8796093022208 := by norm_num
  have huniq := (Int.ediv_emod_unique
      (a := ((t : ℤ) * 8796093022208 - 2402652809016115 * 1) * 10)
      (b := 8796093022208) (r := 4398046511106)
      (q := 10 * (t : ℤ) - 2732) hD).2
      ⟨by ring, by norm_num, by norm_num⟩
  have harg : ((Frac.sub (Frac.ofNat t) kelvinOffset).num * ((10 : ℕ) : ℤ))
      = ((t : ℤ) * 8796093022208 - 2402652809016115 * 1) * 10 := by
    simp only [Frac.sub, Frac.ofNat, kelvinOffset]
    push_cast
    ring
  have hden : (((Frac.sub (Frac.ofNat t) kelvinOffset).den : ℕ) : ℤ) = 8796093022208 := by
    simp [Frac.sub, Frac.ofNat, kelvinOffset]
  have hediv : ∀ a b : ℤ, a.ediv b = a / b := fun _ _ => rfl
  have hemod : ∀ a b : ℤ, a.emod b = a % b := fun _ _ => rfl
  simp only [Frac.rndScaled, hediv, hemod]
  rw [harg, hden, huniq.1, huniq.2]
  norm_num
  ring

/-- C5: on the NVMe path an extracted Celsius integer above 200 is
reinterpreted as Kelvin and replaced by `value − 273.15` rounded to
one decimal; at or below 200 it is used unchanged; the SAS/SATA path
stores the extracted integer unchanged; extracting 300 yields `26.9`
and 45 yields `45`. -/
theorem nvme_kelvin_heuristic (t : ℕ) :
    (200 < t → nvme_temperature_value t = specNvmeKelvin t)
  ∧ (t ≤ 200 → nvme_temperature_value t = (⟨renderNat t⟩ : String))
  ∧ sata_temperature_value t = (⟨renderNat t⟩ : String)
  ∧ nvme_temperature_value 300 = "26.9"
  ∧ nvme_temperature_value 45 = "45" := by
  refine ⟨fun h => ?_, fun h => ?_, rfl, by decide, by decide⟩
  · rw [nvme_temperature_value, if_pos h, specNvmeKelvin, kelvin_rndScaled]
  · rw [nvme_temperature_value, if_neg (not_lt.2 h)]

/-- Witness for C5 at 300 and 45. -/
theorem nvme_kelvin_heuristic_witness :
    nvme_temperature_value 300 = specNvmeKelvin 300
  ∧ nvme_temperature_value 45 = (⟨renderNat 45⟩ : String) :=
  ⟨(nvme_kelvin_heuristic 300).1 (by decide),
    (nvme_kelvin_heuristic 45).2.1 (by decide)⟩

/-! ### C6: classifier totality and priority -/

/-- C6: `classify_disk` is a total function returning one of the four
classes, deciding in priority order: a virtualization marker in the
model always yields `VIRTUAL`; otherwise an `nvme`-prefixed name
yields `NVME_SSD`; otherwise a rotational raw type yields `SAS_HDD`;
every remaining descriptor yields `SAS_SSD`. -/
theorem classify_disk_total (disk_name disk_type disk_model : String) :
    (classify_disk disk_name disk_type disk_model = "VIRTUAL" ∨
      classify_disk disk_name disk_type disk_model = "NVME_SSD" ∨
      classify_disk disk_name disk_type disk_model = "SAS_HDD" ∨
      classify_disk disk_name disk_type disk_model = "SAS_SSD")
  ∧ ((containsSeq "VMware".data disk_model.data = true ∨
      containsSeq "Virtual".data disk_model.data = true) →
      classify_disk disk_name disk_type disk_model = "VIRTUAL")
  ∧ (¬ (containsSeq "VMware".data disk_model.data = true ∨
        containsSeq "Virtual".data disk_model.data = true) →
      "nvme".data.isPrefixOf disk_name.data = true →
      classify_disk disk_name disk_type disk_model = "NVME_SSD")
  ∧ (¬ (containsSeq "VMware".data disk_model.data = true ∨
        containsSeq "Virtual".data disk_model.data = true) →
      ¬ "nvme".data.isPrefixOf disk_name.data = true →
      pyUpper disk_type = "HDD" →
      classify_disk disk_name disk_type disk_model = "SAS_HDD")
  ∧ (¬ (containsSeq "VMware".data disk_model.data = true ∨
        containsSeq "Virtual".data disk_model.data = true) →
      ¬ "nvme".data.isPrefixOf disk_name.data = true →
      pyUpper disk_type ≠ "HDD" →
      classify_disk disk_name disk_type disk_model = "SAS_SSD") := by
  refine ⟨?_, fun h => ?_, fun hA hB => ?_, fun hA hB hC => ?_, fun hA hB hC => ?_⟩
  · rw [classify_disk]
    split_ifs <;> simp
  · rw [classify_disk, if_pos h]
  · rw [classify_disk, if_neg hA, if_pos hB]
  · rw [classify_disk, if_neg hA, if_neg hB, if_pos hC]
  · rw [classify_disk, if_neg hA, if_neg hB, if_neg hC]

/-- Witness for C6 on four concrete descriptors, one per branch. -/
theorem classify_disk_total_witness :
    classify_disk "sda" "SSD" "VMware Virtual disk" = "VIRTUAL"
  ∧ classify_disk "nvme0n1" "SSD" "Samsung X" = "NVME_SSD"
  ∧ classify_disk "sda" "hdd" "WDC" = "SAS_HDD"
  ∧ classify_disk "sda" "SSD" "Micron" = "SAS_SSD" :=
  ⟨(classify_disk_total "sda" "SSD" "VMware Virtual disk").2.1 (by decide),
    (classify_disk_total "nvme0n1" "SSD" "Samsung X").2.2.1 (by decide) (by decide),
    (classify_disk_total "sda" "hdd" "WDC").2.2.2.1 (by decide) (by decide) (by decide),
    (classify_disk_total "sda" "SSD" "Micron").2.2.2.2 (by decide) (by decide) (by decide)⟩

/-! ### C9: the fallback is gated on the non-medium match -/

set_option maxRecDepth 100000 in
/-- C9: on a text whose rows only the regular-column fallback pattern
matches and which has no `Non-medium error count:` line, the code as
written leaves `Data_Read`/`Data_Written` unset even though the
fallback rows are present, because the fallback block is nested inside
`if non_medium_match:`; adding the non-medium line makes the same
fallback fire; the behavior modelled from the spec fills the values
from the fallback regardless. -/
theorem sata_fallback_guard_bug :
    (extract_sata_io sataFallbackOnlyText).dataRead = none
  ∧ (extract_sata_io sataFallbackOnlyText).dataWritten = none
  ∧ findallFallback (sataFallbackOnlyText.data.length + 1)
      sataFallbackOnlyText.data ≠ []
  ∧ (extract_sata_io_claimed sataFallbackOnlyText).dataRead = some "45.7 GB"
  ∧ (extract_sata_io_claimed sataFallbackOnlyText).dataWritten = some "12.5 GB"
  ∧ (extract_sata_io sataFallbackWithNonMediumText).dataRead = some "45.7 GB"
  ∧ (extract_sata_io sataFallbackWithNonMediumText).dataWritten = some "12.5 GB" := by
  refine ⟨by decide, by decide, by decide, by decide, by decide, by decide, by decide⟩

/-! ### C4: duration formatting -/

theorem renderInt_natCast (k : ℕ) : renderInt (k : ℤ) = renderNat k := by
  rw [renderInt, if_neg (not_lt.2 (Int.natCast_nonneg k))]
  simp

theorem format_hours_int_natCast (h : ℕ) :
    format_hours_int (h : ℤ) = specFormatDuration h := by
  have e1 : (h : ℤ).ediv (365 * 24) = ((h / (365 * 24) : ℕ) : ℤ) := rfl
  have e2 : (h : ℤ).emod (365 * 24) = ((h % (365 * 24) : ℕ) : ℤ) := rfl
  have e3 : ((h % (365 * 24) : ℕ) : ℤ).ediv (30 * 24)
      = ((h % (365 * 24) / (30 * 24) : ℕ) : ℤ) := rfl
  have e4 : ((h % (365 * 24) : ℕ) : ℤ).emod (30 * 24)
      = ((h % (365 * 24) % (30 * 24) : ℕ) : ℤ) := rfl
  have e5 : ((h % (365 * 24) % (30 * 24) : ℕ) : ℤ).ediv 24
      = ((h % (365 * 24) % (30 * 24) / 24 : ℕ) : ℤ) := rfl
  have e6 : ((h % (365 * 24) % (30 * 24) : ℕ) : ℤ).emod 24
      = ((h % (365 * 24) % (30 * 24) % 24 : ℕ) : ℤ) := rfl
  rw [format_hours_int, format_hours_parts, specFormatDuration]
  simp only [e1, e2, e3, e4, e5, e6, Int.natCast_pos, renderInt_natCast]
  by_cases hy : h / (365 * 24) = 0 <;>
    by_cases hm : h % (365 * 24) / (30 * 24) = 0 <;>
      by_cases hd : h % (365 * 24) % (30 * 24) / 24 = 0 <;>
        by_cases hhr : h % (365 * 24) % (30 * 24) % 24 = 0 <;>
          (simp [hy, hm, hd, hhr, Nat.pos_iff_ne_zero]; try decide)

/-- C4: `format_hours` decomposes an integer hour count by the divmod
chain over `365*24`, `30*24` and `24`, emitting only the nonzero
components in that order with suffixes `y`, `m`, `d`, `hrs` and
`0hrs` when everything is zero (the spec-side rendering
`specFormatDuration`); for 26301 that chain gives years 3, months 0,
days 0, hours 21, i.e. exactly `"3y 21hrs"`. -/
theorem format_duration_divmod :
    (∀ h : ℕ, format_hours_int (h : ℤ) = specFormatDuration h)
  ∧ 26301 / (365 * 24) = 3
  ∧ 26301 % (365 * 24) / (30 * 24) = 0
  ∧ 26301 % (365 * 24) % (30 * 24) / 24 = 0
  ∧ 26301 % (365 * 24) % (30 * 24) % 24 = 21
  ∧ format_hours "26301" = "3y 21hrs" :=
  ⟨format_hours_int_natCast, by norm_num, by norm_num, by norm_num,
    by norm_num, by decide⟩

/-! ### C8: unparseable input -/

/-- C8 counterexample: the empty string matches neither the size
pattern nor a numeric literal, yet it is not returned unchanged — the
falsy check maps it to `"N/A"`. -/
theorem normalize_empty_not_unchanged : normalize_size_unit "" ≠ "" := by decide

/-- C8 (amended): every nonempty input matching neither the size
pattern nor a float literal is returned unchanged; the empty string
yields `NOT_AVAILABLE`. -/
theorem normalize_unparseable_unchanged (s : String)
    (hm : sizeMatchData s.data = none) (hf : pyFloatOfChars s.data = none) :
    (s ≠ "" → normalize_size_unit s = s)
  ∧ normalize_size_unit "" = NOT_AVAILABLE := by
  refine ⟨fun hs => ?_, by decide⟩
  rw [normalize_size_unit, if_neg hs, hm, hf]

/-- Witness for C8 at `"abc"`. -/
theorem normalize_unparseable_unchanged_witness :
    normalize_size_unit "abc" = "abc"
  ∧ normalize_size_unit "" = NOT_AVAILABLE :=
  ⟨(normalize_unparseable_unchanged "abc" (by decide) (by decide)).1 (by decide),
    (normalize_unparseable_unchanged "abc" (by decide) (by decide)).2⟩

/-! ### C7: topology fallback -/

theorem dropWhile_head_false {p : Char → Bool} {l : List Char} {c : Char}
    {t : List Char} (h : l.dropWhile p = c :: t) : p c = false := by
  induction l with
  | nil => simp at h
  | cons a l ih =>
    rw [List.dropWhile_cons] at h
    by_cases hp : p a = true
    · rw [if_pos hp] at h
      exact ih h
    · rw [if_neg hp] at h
      cases h
      simpa using hp

theorem dropTrailingWs_cons (c : Char) (t : List Char) :
    dropTrailingWs (c :: t) =
      if dropTrailingWs t = [] ∧ pyIsSpace c = true then []
      else c :: dropTrailingWs t := rfl

theorem stripChars_head_not_ws {l : List Char} {c : Char} {t : List Char}
    (h : stripChars l = c :: t) : pyIsSpace c = false := by
  rw [stripChars] at h
  rcases hd : l.dropWhile pyIsSpace with _ | ⟨a, r⟩
  · rw [hd] at h
    simp [dropTrailingWs] at h
  · rw [hd, dropTrailingWs_cons] at h
    by_cases hc : dropTrailingWs r = [] ∧ pyIsSpace a = true
    · rw [if_pos hc] at h
      exact absurd h (by simp)
    · rw [if_neg hc] at h
      cases h
      exact dropWhile_head_false hd

theorem dropWhile_of_head_false {p : Char → Bool} {l : List Char}
    (h : ∀ c t, l = c :: t → p c = false) : l.dropWhile p = l := by
  cases l with
  | nil => rfl
  | cons c t =>
    rw [List.dropWhile_cons, if_neg (by simp [h c t rfl])]

/-- The first token of `pySplitWs` is the leading non-whitespace run. -/
theorem pySplitWs_head {l tok : List Char} {r : List (List Char)}
    (h : pySplitWs l = tok :: r) :
    tok = (l.dropWhile pyIsSpace).takeWhile (fun x => ! pyIsSpace x) := by
  rw [pySplitWs, pySplitWsAux] at h
  rcases hd : l.dropWhile pyIsSpace with _ | ⟨c, t⟩ <;> rw [hd] at h
  · simp at h
  · cases h
    rfl

/-- C7: when the primary topology source yields no assignments, the
resolver is exactly the `zpool status` text parse; otherwise the
primary result is used; a `pool:` header line updates the current
pool; a line whose first token is a structural keyword
(`mirror`, `raidz1/2/3`) changes nothing; and on the text
`pool: tank` followed by a line starting `ada0`, the parse yields
exactly `[("ada0", "tank")]`. -/
theorem topology_fallback_parse
    (primary : List (String × String)) (zfs_output : String)
    (st : Option (List Char) × List (String × String))
    (line tok : List Char) (r : List (List Char)) :
    (primary = [] →
      resolve_disk_to_pool primary zfs_output = get_pool_name_from_zfs zfs_output)
  ∧ (primary ≠ [] → resolve_disk_to_pool primary zfs_output = primary)
  ∧ ("pool:".data.isPrefixOf (stripChars line) = true →
      zfs_line_step st line = (some (stripChars ((stripChars line).drop 5)), st.2))
  ∧ (pySplitWs (stripChars line) = tok :: r →
      (tok = "mirror".data ∨ tok = "raidz1".data ∨ tok = "raidz2".data ∨
        tok = "raidz3".data) →
      zfs_line_step st line = st)
  ∧ get_pool_name_from_zfs "pool: tank\n  ada0  ONLINE 0 0 0" = [("ada0", "tank")] := by
  refine ⟨fun h => ?_, fun h => ?_, fun h => ?_, fun hline hkw => ?_, by decide⟩
  · rw [resolve_disk_to_pool, if_pos h]
  · rw [resolve_disk_to_pool, if_neg h]
  · rw [zfs_line_step]
    simp only [h, if_pos]
  · have htok : tok = (stripChars line).takeWhile (fun x => ! pyIsSpace x) := by
      have := pySplitWs_head hline
      rwa [dropWhile_of_head_false
        (fun c t hct => stripChars_head_not_ws hct)] at this
    have hsplit : stripChars line
        = tok ++ (stripChars line).dropWhile (fun x => ! pyIsSpace x) := by
      rw [htok, List.takeWhile_append_dropWhile]
    have hnp : "pool:".data.isPrefixOf (stripChars line) = false := by
      rw [hsplit]
      rcases hkw with hk | hk | hk | hk <;> rw [hk] <;> rfl
    rw [zfs_line_step]
    simp only [hnp]
    rw [if_neg (by simp)]
    by_cases hskip : st.1 = none ∨ containsSeq "state:".data (stripChars line) = true ∨
        containsSeq "scan:".data (stripChars line) = true ∨
        containsSeq "config:".data (stripChars line) = true ∨ stripChars line = [] ∨
        "NAME".data.isPrefixOf (stripChars line) = true
    · rw [if_pos hskip]
    · rw [if_neg hskip]
      rcases hcur : st.1 with _ | cur
      · exact absurd (Or.inl hcur) hskip
      · rcases hkw with hk | hk | hk | hk <;> subst hk <;> simp [hline]

/-- Witness for C7 at concrete inputs. -/
theorem topology_fallback_parse_witness :
    resolve_disk_to_pool [] "pool: tank\n  ada0  ONLINE 0 0 0"
      = get_pool_name_from_zfs "pool: tank\n  ada0  ONLINE 0 0 0"
  ∧ resolve_disk_to_pool [("x", "y")] "" = [("x", "y")]
  ∧ zfs_line_step (none, []) " pool: tank ".data
      = (some (stripChars ((stripChars " pool: tank ".data).drop 5)), [])
  ∧ zfs_line_step (some "tank".data, []) "  mirror ONLINE".data
      = (some "tank".data, [])
  ∧ get_pool_name_from_zfs "pool: tank\n  ada0  ONLINE 0 0 0" = [("ada0", "tank")] := by
  refine ⟨(topology_fallback_parse [] "pool: tank\n  ada0  ONLINE 0 0 0"
      (none, []) [] [] []).1 rfl,
    (topology_fallback_parse [("x", "y")] "" (none, []) [] [] []).2.1 (by decide),
    (topology_fallback_parse [] "" (none, []) " pool: tank ".data [] []).2.2.1
      (by decide),
    (topology_fallback_parse [] "" (some "tank".data, [])
      "  mirror ONLINE".data "mirror".data ["ONLINE".data]).2.2.2.1
      (by decide) (Or.inl rfl),
    (topology_fallback_parse [] "" (none, []) [] [] []).2.2.2.2⟩

/-! ### The ladder refinement: `format_size` against `specFormatSize` -/

set_option maxRecDepth 10000

theorem ble1024_iff (s : Frac) (hs : 0 < s.den) :
    Frac.ble (Frac.ofNat 1024) s = true ↔ (1024 : ℚ) ≤ s.toRat := by
  rw [Frac.ble_iff _ _ (by norm_num [Frac.ofNat]) hs, Frac.toRat_ofNat]
  norm_num

theorem ble1000_iff (s : Frac) (hs : 0 < s.den) :
    Frac.ble (Frac.ofNat 1000) s = true ↔ (1000 : ℚ) ≤ s.toRat := by
  rw [Frac.ble_iff _ _ (by norm_num [Frac.ofNat]) hs, Frac.toRat_ofNat]
  norm_num

theorem blt10_iff (s : Frac) (hs : 0 < s.den) :
    Frac.blt s (Frac.ofNat 10) = true ↔ s.toRat < (10 : ℚ) := by
  rw [Frac.blt_iff _ _ hs (by norm_num [Frac.ofNat]), Frac.toRat_ofNat]
  norm_num

theorem blt100_iff (s : Frac) (hs : 0 < s.den) :
    Frac.blt s (Frac.ofNat 100) = true ↔ s.toRat < (100 : ℚ) := by
  rw [Frac.blt_iff _ _ hs (by norm_num [Frac.ofNat]), Frac.toRat_ofNat]
  norm_num

theorem sizeLadder_succ (f : ℕ) (s : Frac) (i : ℕ) :
    sizeLadder (f + 1) s i =
      if Frac.ble (Frac.ofNat 1024) s = true ∧ i < 5 then
        sizeLadder f (s.divNat 1024) (i + 1)
      else (s, i) := rfl

theorem sizeLadder5 (s : Frac) (i : ℕ) :
    sizeLadder 5 s i =
      if Frac.ble (Frac.ofNat 1024) s = true ∧ i < 5 then
        sizeLadder 4 (s.divNat 1024) (i + 1)
      else (s, i) := sizeLadder_succ 4 s i

theorem sizeLadder4 (s : Frac) (i : ℕ) :
    sizeLadder 4 s i =
      if Frac.ble (Frac.ofNat 1024) s = true ∧ i < 5 then
        sizeLadder 3 (s.divNat 1024) (i + 1)
      else (s, i) := sizeLadder_succ 3 s i

theorem sizeLadder3 (s : Frac) (i : ℕ) :
    sizeLadder 3 s i =
      if Frac.ble (Frac.ofNat 1024) s = true ∧ i < 5 then
        sizeLadder 2 (s.divNat 1024) (i + 1)
      else (s, i) := sizeLadder_succ 2 s i

theorem sizeLadder2 (s : Frac) (i : ℕ) :
    sizeLadder 2 s i =
      if Frac.ble (Frac.ofNat 1024) s = true ∧ i < 5 then
        sizeLadder 1 (s.divNat 1024) (i + 1)
      else (s, i) := sizeLadder_succ 1 s i

theorem sizeLadder1 (s : Frac) (i : ℕ) :
    sizeLadder 1 s i =
      if Frac.ble (Frac.ofNat 1024) s = true ∧ i < 5 then
        sizeLadder 0 (s.divNat 1024) (i + 1)
      else (s, i) := sizeLadder_succ 0 s i

theorem sizeLadder0 (s : Frac) (i : ℕ) : sizeLadder 0 s i = (s, i) := rfl

theorem sizeLadder_spec (a : Frac) (ha : 0 < a.den) :
    (sizeLadder 5 a 0).1.toRat = a.toRat / 1024 ^ ladderIdx a.toRat
  ∧ (sizeLadder 5 a 0).2 = ladderIdx a.toRat
  ∧ 0 < (sizeLadder 5 a 0).1.den := by
  have hd1 : 0 < (a.divNat 1024).den := by rw [Frac.den_divNat]; positivity
  have hd2 : 0 < ((a.divNat 1024).divNat 1024).den := by
    rw [Frac.den_divNat]; positivity
  have hd3 : 0 < (((a.divNat 1024).divNat 1024).divNat 1024).den := by
    rw [Frac.den_divNat]; positivity
  have hd4 : 0 < ((((a.divNat 1024).divNat 1024).divNat 1024).divNat 1024).den := by
    rw [Frac.den_divNat]; positivity
  have hd5 : 0 <
      (((((a.divNat 1024).divNat 1024).divNat 1024).divNat 1024).divNat 1024).den := by
    rw [Frac.den_divNat]; positivity
  have hv1 : (a.divNat 1024).toRat = a.toRat / 1024 := by
    rw [Frac.toRat_divNat]
    norm_num
  have hv2 : ((a.divNat 1024).divNat 1024).toRat = a.toRat / 1024 ^ 2 := by
    rw [Frac.toRat_divNat, hv1, div_div]
    norm_num
  have hv3 : (((a.divNat 1024).divNat 1024).divNat 1024).toRat
      = a.toRat / 1024 ^ 3 := by
    rw [Frac.toRat_divNat, hv2, div_div]
    norm_num
  have hv4 : ((((a.divNat 1024).divNat 1024).divNat 1024).divNat 1024).toRat
      = a.toRat / 1024 ^ 4 := by
    rw [Frac.toRat_divNat, hv3, div_div]
    norm_num
  have hv5 :
      (((((a.divNat 1024).divNat 1024).divNat 1024).divNat 1024).divNat 1024).toRat
      = a.toRat / 1024 ^ 5 := by
    rw [Frac.toRat_divNat, hv4, div_div]
    norm_num
  rcases lt_or_le a.toRat 1024 with h1 | h1
  · have hg : ¬ (Frac.ble (Frac.ofNat 1024) a = true ∧ (0 : ℕ) < 5) := by
      rintro ⟨hc, -⟩
      exact absurd ((ble1024_iff a ha).1 hc) (not_le.2 h1)
    rw [sizeLadder5, if_neg hg, ladderIdx, if_pos h1]
    simp [ha]
  · have hg0 : Frac.ble (Frac.ofNat 1024) a = true ∧ (0 : ℕ) < 5 :=
      ⟨(ble1024_iff a ha).2 h1, by norm_num⟩
    rw [sizeLadder5, if_pos hg0, sizeLadder4]
    rcases lt_or_le a.toRat (1024 ^ 2) with h2 | h2
    · have hg : ¬ (Frac.ble (Frac.ofNat 1024) (a.divNat 1024) = true
          ∧ (1 : ℕ) < 5) := by
        rintro ⟨hc, -⟩
        have hh := (ble1024_iff _ hd1).1 hc
        rw [hv1, le_div_iff₀ (by norm_num : (0:ℚ) < 1024)] at hh
        norm_num at hh h2
        linarith
      rw [if_neg hg, ladderIdx, if_neg (not_lt.2 h1), if_pos h2, hv1]
      refine ⟨by norm_num, rfl, hd1⟩
    · have hg1 : Frac.ble (Frac.ofNat 1024) (a.divNat 1024) = true
          ∧ (1 : ℕ) < 5 := by
        refine ⟨(ble1024_iff _ hd1).2 ?_, by norm_num⟩
        rw [hv1, le_div_iff₀ (by norm_num : (0:ℚ) < 1024)]
        norm_num at h2 ⊢
        linarith
      rw [if_pos hg1, sizeLadder3]
      rcases lt_or_le a.toRat (1024 ^ 3) with h3 | h3
      · have hg : ¬ (Frac.ble (Frac.ofNat 1024) ((a.divNat 1024).divNat 1024) = true
            ∧ (2 : ℕ) < 5) := by
          rintro ⟨hc, -⟩
          have hh := (ble1024_iff _ hd2).1 hc
          rw [hv2, le_div_iff₀ (by positivity : (0:ℚ) < 1024 ^ 2)] at hh
          norm_num at hh h3
          linarith
        rw [if_neg hg, ladderIdx, if_neg (not_lt.2 h1),
          if_neg (not_lt.2 h2), if_pos h3, hv2]
        exact ⟨rfl, rfl, hd2⟩
      · have hg2 : Frac.ble (Frac.ofNat 1024) ((a.divNat 1024).divNat 1024) = true
            ∧ (2 : ℕ) < 5 := by
          refine ⟨(ble1024_iff _ hd2).2 ?_, by norm_num⟩
          rw [hv2, le_div_iff₀ (by positivity : (0:ℚ) < 1024 ^ 2)]
          norm_num at h3 ⊢
          linarith
        rw [if_pos hg2, sizeLadder2]
        rcases lt_or_le a.toRat (1024 ^ 4) with h4 | h4
        · have hg : ¬ (Frac.ble (Frac.ofNat 1024)
              (((a.divNat 1024).divNat 1024).divNat 1024) = true
              ∧ (3 : ℕ) < 5) := by
            rintro ⟨hc, -⟩
            have hh := (ble1024_iff _ hd3).1 hc
            rw [hv3, le_div_iff₀ (by positivity : (0:ℚ) < 1024 ^ 3)] at hh
            norm_num at hh h4
            linarith
          rw [if_neg hg, ladderIdx, if_neg (not_lt.2 h1), if_neg (not_lt.2 h2),
            if_neg (not_lt.2 h3), if_pos h4, hv3]
          exact ⟨rfl, rfl, hd3⟩
        · have hg3 : Frac.ble (Frac.ofNat 1024)
              (((a.divNat 1024).divNat 1024).divNat 1024) = true
              ∧ (3 : ℕ) < 5 := by
            refine ⟨(ble1024_iff _ hd3).2 ?_, by norm_num⟩
            rw [hv3, le_div_iff₀ (by positivity : (0:ℚ) < 1024 ^ 3)]
            norm_num at h4 ⊢
            linarith
          rw [if_pos hg3, sizeLadder1]
          rcases lt_or_le a.toRat (1024 ^ 5) with h5 | h5
          · have hg : ¬ (Frac.ble (Frac.ofNat 1024)
                ((((a.divNat 1024).divNat 1024).divNat 1024).divNat 1024) = true
                ∧ (4 : ℕ) < 5) := by
              rintro ⟨hc, -⟩
              have hh := (ble1024_iff _ hd4).1 hc
              rw [hv4, le_div_iff₀ (by positivity : (0:ℚ) < 1024 ^ 4)] at hh
              norm_num at hh h5
              linarith
            rw [if_neg hg, ladderIdx, if_neg (not_lt.2 h1), if_neg (not_lt.2 h2),
              if_neg (not_lt.2 h3), if_neg (not_lt.2 h4), if_pos h5, hv4]
            exact ⟨rfl, rfl, hd4⟩
          · have hg4 : Frac.ble (Frac.ofNat 1024)
                ((((a.divNat 1024).divNat 1024).divNat 1024).divNat 1024) = true
                ∧ (4 : ℕ) < 5 := by
              refine ⟨(ble1024_iff _ hd4).2 ?_, by norm_num⟩
              rw [hv4, le_div_iff₀ (by positivity : (0:ℚ) < 1024 ^ 4)]
              norm_num at h5 ⊢
              linarith
            rw [if_pos hg4, sizeLadder0, ladderIdx, if_neg (not_lt.2 h1),
              if_neg (not_lt.2 h2), if_neg (not_lt.2 h3), if_neg (not_lt.2 h4),
              if_neg (not_lt.2 h5), hv5]
            exact ⟨rfl, rfl, hd5⟩

theorem fmt2_eq (a : Frac) (ha : 0 < a.den) : fmt2 a = qFmt2 a.toRat := by
  simp only [fmt2, qFmt2, Frac.rndScaled_eq a 100 ha]
  norm_num

theorem fmt1_eq (a : Frac) (ha : 0 < a.den) : fmt1 a = qFmt1 a.toRat := by
  simp only [fmt1, qFmt1, Frac.rndScaled_eq a 10 ha]
  norm_num

theorem fmtInt_eq (a : Frac) (ha : 0 < a.den) :
    fmtInt a = renderInt (qTrunc a.toRat) := by
  rw [fmtInt, Frac.trunc_eq a ha]

theorem specFormatSize_pair {x v : ℚ} {i : ℕ} (h : specPair x = (v, i)) :
    specFormatSize x =
      if v < 10 then (⟨qFmt2 v ++ ' ' :: unitName i⟩ : String)
      else if v < 100 then ⟨qFmt1 v ++ ' ' :: unitName i⟩
      else ⟨renderInt (qTrunc v) ++ ' ' :: unitName i⟩ := by
  simp only [specFormatSize, h]

theorem band_bridge (b : Frac) (i : ℕ) (hb : 0 < b.den) :
    (if Frac.blt b (Frac.ofNat 10) = true then
        (⟨fmt2 b ++ ' ' :: unitName i⟩ : String)
      else if Frac.blt b (Frac.ofNat 100) = true then
        ⟨fmt1 b ++ ' ' :: unitName i⟩
      else ⟨fmtInt b ++ ' ' :: unitName i⟩)
    = (if b.toRat < 10 then (⟨qFmt2 b.toRat ++ ' ' :: unitName i⟩ : String)
      else if b.toRat < 100 then ⟨qFmt1 b.toRat ++ ' ' :: unitName i⟩
      else ⟨renderInt (qTrunc b.toRat) ++ ' ' :: unitName i⟩) := by
  rw [fmt2_eq b hb, fmt1_eq b hb, fmtInt_eq b hb]
  by_cases h10 : b.toRat < 10
  · rw [if_pos ((blt10_iff b hb).2 h10), if_pos h10]
  · rw [if_neg (fun hc => h10 ((blt10_iff b hb).1 hc)), if_neg h10]
    by_cases h100 : b.toRat < 100
    · rw [if_pos ((blt100_iff b hb).2 h100), if_pos h100]
    · rw [if_neg (fun hc => h100 ((blt100_iff b hb).1 hc)), if_neg h100]

theorem format_size_eq_spec (a : Frac) (ha : 0 < a.den) :
    format_size a = specFormatSize a.toRat := by
  obtain ⟨hv, hi, hd⟩ := sizeLadder_spec a ha
  simp only [format_size]
  by_cases hC3 : (sizeLadder 5 a 0).2 = 3 ∧
      Frac.ble (Frac.ofNat 1000) (sizeLadder 5 a 0).1 = true
  · rw [if_pos hC3]
    have hC2 : ¬ ((sizeLadder 5 a 0).2 + 1 = 2 ∧
        Frac.ble (Frac.ofNat 1000) ((sizeLadder 5 a 0).1.divNat 1024) = true) := by
      rintro ⟨hc, -⟩
      rw [hC3.1] at hc
      exact absurd hc (by norm_num)
    rw [if_neg hC2]
    have hsp : specPair a.toRat =
        (a.toRat / 1024 ^ ladderIdx a.toRat / 1024, ladderIdx a.toRat + 1) := by
      rw [specPair]
      rw [if_pos ⟨Or.inr (hi ▸ hC3.1), by rw [← hv]; exact (ble1000_iff _ hd).1 hC3.2⟩]
    have hbv : ((sizeLadder 5 a 0).1.divNat 1024).toRat
        = a.toRat / 1024 ^ ladderIdx a.toRat / 1024 := by
      rw [Frac.toRat_divNat, hv]
      norm_num
    have hbd : 0 < ((sizeLadder 5 a 0).1.divNat 1024).den := by
      rw [Frac.den_divNat]; positivity
    rw [specFormatSize_pair hsp, hi, band_bridge _ _ hbd, hbv]
  · rw [if_neg hC3]
    by_cases hC2 : (sizeLadder 5 a 0).2 = 2 ∧
        Frac.ble (Frac.ofNat 1000) (sizeLadder 5 a 0).1 = true
    · rw [if_pos hC2]
      have hsp : specPair a.toRat =
          (a.toRat / 1024 ^ ladderIdx a.toRat / 1024, ladderIdx a.toRat + 1) := by
        rw [specPair]
        rw [if_pos ⟨Or.inl (hi ▸ hC2.1), by rw [← hv]; exact (ble1000_iff _ hd).1 hC2.2⟩]
      have hbv : ((sizeLadder 5 a 0).1.divNat 1024).toRat
          = a.toRat / 1024 ^ ladderIdx a.toRat / 1024 := by
        rw [Frac.toRat_divNat, hv]
        norm_num
      have hbd : 0 < ((sizeLadder 5 a 0).1.divNat 1024).den := by
        rw [Frac.den_divNat]; positivity
      rw [specFormatSize_pair hsp, hi, band_bridge _ _ hbd, hbv]
    · rw [if_neg hC2]
      have hsp : specPair a.toRat =
          (a.toRat / 1024 ^ ladderIdx a.toRat, ladderIdx a.toRat) := by
        rw [specPair]
        rw [if_neg ?hng]
        case hng =>
          rintro ⟨hio, hge⟩
          rw [← hv] at hge
          have hble := (ble1000_iff _ hd).2 hge
          rcases hio with hio | hio
          · exact hC2 ⟨hi.trans hio, hble⟩
          · exact hC3 ⟨hi.trans hio, hble⟩
      rw [specFormatSize_pair hsp, hi, band_bridge _ _ hd, hv]

/-! ### C3: ladder rendering and the byte-count example -/

/-- C3 counterexample: `normalize_size_unit` on the byte count
`1099511627776` (= 1024^4) does not yield `"1 TB"`. -/
theorem normalize_bytes_example_ne :
    normalize_size_unit "1099511627776" ≠ "1 TB" := by decide

/-- C3 (amended): `format_size` renders exactly as the spec's ladder
says — base-1024 unit ladder with the MB/GB ≥1000 escalation and the
10/100 precision bands (`specFormatSize`) — and the bare byte count
`"1099511627776"` renders as `"1.00 TB"` (the value 1 in TB falls in
the two-decimal band, so not `"1 TB"`). -/
theorem format_size_ladder_spec (a : Frac) (ha : 0 < a.den) :
    format_size a = specFormatSize a.toRat
  ∧ normalize_size_unit "1099511627776" = "1.00 TB" :=
  ⟨format_size_eq_spec a ha, by decide⟩

/-- Witness for C3 at the byte count 1099511627776. -/
theorem format_size_ladder_spec_witness :
    format_size ⟨1099511627776, 1⟩ = specFormatSize (Frac.toRat ⟨1099511627776, 1⟩)
  ∧ normalize_size_unit "1099511627776" = "1.00 TB" :=
  format_size_ladder_spec ⟨1099511627776, 1⟩ (by norm_num)

/-! ### C10: zero growth -/

theorem Frac.num_eq_zero (a : Frac) (ha : 0 < a.den) (h : a.toRat = 0) :
    a.num = 0 := by
  rw [Frac.toRat, div_eq_zero_iff] at h
  rcases h with h | h
  · exact_mod_cast h
  · exact absurd (by exact_mod_cast h : a.den = 0) ha.ne'

theorem specFormatSize_zero : specFormatSize 0 = "0.00 B" := by
  have h1 : ladderIdx (0 : ℚ) = 0 := by
    rw [ladderIdx, if_pos (by norm_num)]
  have hsp : specPair (0 : ℚ) = (0, 0) := by
    simp only [specPair, h1]
    norm_num
  rw [specFormatSize_pair hsp, if_pos (by norm_num : (0:ℚ) < 10)]
  have hq : qRndHE (100 * (0 : ℚ)) = 0 := by
    rw [qRndHE]
    norm_num
  simp only [qFmt2, hq]
  rfl

theorem format_size_zero (a : Frac) (ha : 0 < a.den) (h : a.num = 0) :
    format_size a = "0.00 B" := by
  have hz : a.toRat = 0 := by
    simp [Frac.toRat, h]
  rw [format_size_eq_spec a ha, hz, specFormatSize_zero]

/-- C10 (implicit): when the previous and current values parse to the
same byte count, the delta is the normalized zero size `"0.00 B"` —
not `RESET` and not `NOT_AVAILABLE` — since `RESET` needs a strictly
negative difference. -/
theorem delta_zero_growth (p c : String) (v w : Frac)
    (hp : parse_size_to_bytes p = some v) (hc : parse_size_to_bytes c = some w)
    (hvw : v.toRat = w.toRat) :
    calculate_size_increment p c = "0.00 B" := by
  have hdv := (parse_size_to_bytes_some p v hp).1
  have hdw := (parse_size_to_bytes_some c w hc).1
  have hdd : 0 < (w.sub v).den := by
    rw [Frac.den_sub]
    positivity
  have hz : (w.sub v).toRat = 0 := by
    rw [Frac.toRat_sub w v hdw hdv, hvw]
    ring
  have hnum := Frac.num_eq_zero (w.sub v) hdd hz
  have hblt : Frac.blt (w.sub v) (Frac.ofNat 0) = false := by
    simp only [Frac.blt, Frac.ofNat, hnum]
    simp
  rw [calculate_size_increment, hp, hc]
  simp only [hblt]
  rw [if_neg (by simp)]
  exact format_size_zero (w.sub v) hdd hnum

/-- Witness for C10 at equal inputs `"2 TB"`. -/
theorem delta_zero_growth_witness :
    calculate_size_increment "2 TB" "2 TB" = "0.00 B" :=
  delta_zero_growth "2 TB" "2 TB" ⟨2 * 1024 ^ 4, 1⟩ ⟨2 * 1024 ^ 4, 1⟩
    (by decide) (by decide) rfl

/-! ### C2: digit-rendering round-trip toolkit -/

theorem digitChar_isDigit {n : ℕ} (h : n < 10) : (digitChar n).isDigit = true := by
  interval_cases n <;> decide

theorem digitChar_toNat {n : ℕ} (h : n < 10) : (digitChar n).toNat = 48 + n := by
  interval_cases n <;> decide

theorem renderNatAux_inv : ∀ (f g n : ℕ), n < f → n < g →
    renderNatAux f n = renderNatAux g n := by
  intro f
  induction f with
  | zero => intro g n h _; exact absurd h (Nat.not_lt_zero n)
  | succ f ih =>
    intro g n hf hg
    cases g with
    | zero => exact absurd hg (Nat.not_lt_zero n)
    | succ g =>
      simp only [renderNatAux]
      by_cases h10 : n < 10
      · rw [if_pos h10, if_pos h10]
      · rw [if_neg h10, if_neg h10]
        congr 1
        exact ih g (n / 10) (by omega) (by omega)

theorem renderNat_lt10 {n : ℕ} (h : n < 10) : renderNat n = [digitChar n] := by
  rw [renderNat]
  simp only [renderNatAux]
  rw [if_pos h]

theorem renderNat_ge10 {n : ℕ} (h : 10 ≤ n) :
    renderNat n = renderNat (n / 10) ++ [digitChar (n % 10)] := by
  conv_lhs => rw [renderNat]
  simp only [renderNatAux]
  rw [if_neg (by omega)]
  congr 1
  rw [renderNat]
  exact renderNatAux_inv n (n / 10 + 1) (n / 10) (by omega) (by omega)

theorem digitsVal_append_one (l : List Char) (c : Char) :
    digitsVal (l ++ [c]) = 10 * digitsVal l + (c.toNat - 48) := by
  simp [digitsVal, List.foldl_append]

theorem digitsVal_renderNat (n : ℕ) : digitsVal (renderNat n) = n := by
  induction n using Nat.strong_induction_on with
  | _ n ih =>
    by_cases h : n < 10
    · rw [renderNat_lt10 h]
      simp only [digitsVal, List.foldl_cons, List.foldl_nil]
      rw [digitChar_toNat h]
      omega
    · rw [renderNat_ge10 (by omega), digitsVal_append_one,
        ih (n / 10) (by omega), digitChar_toNat (by omega : n % 10 < 10)]
      omega

theorem renderNat_digits (n : ℕ) : ∀ c ∈ renderNat n, c.isDigit = true := by
  induction n using Nat.strong_induction_on with
  | _ n ih =>
    by_cases h : n < 10
    · rw [renderNat_lt10 h]
      intro c hc
      rw [List.mem_singleton] at hc
      subst hc
      exact digitChar_isDigit h
    · rw [renderNat_ge10 (by omega)]
      intro c hc
      rcases List.mem_append.1 hc with hc | hc
      · exact ih (n / 10) (by omega) c hc
      · rw [List.mem_singleton] at hc
        subst hc
        exact digitChar_isDigit (by omega)

theorem renderNat_ne_nil (n : ℕ) : renderNat n ≠ [] := by
  by_cases h : n < 10
  · rw [renderNat_lt10 h]
    simp
  · rw [renderNat_ge10 (by omega)]
    simp

theorem pad2_val {b : ℕ} (hb : b < 100) : digitsVal (pad2 b) = b := by
  by_cases h : b < 10
  · rw [pad2, if_pos h]
    simp only [digitsVal, List.foldl_cons, List.foldl_nil]
    rw [digitChar_toNat h]
    have h0 : '0'.toNat = 48 := rfl
    rw [h0]
    omega
  · rw [pad2, if_neg h]
    exact digitsVal_renderNat b

theorem pad2_len {b : ℕ} (hb : b < 100) : (pad2 b).length = 2 := by
  by_cases h : b < 10
  · rw [pad2, if_pos h]
    rfl
  · rw [pad2, if_neg h, renderNat_ge10 (by omega),
      renderNat_lt10 (by omega : b / 10 < 10)]
    rfl

theorem pad2_digits {b : ℕ} : ∀ c ∈ pad2 b, c.isDigit = true := by
  by_cases h : b < 10
  · rw [pad2, if_pos h]
    intro c hc
    rcases List.mem_cons.1 hc with hc | hc
    · subst hc
      decide
    · rw [List.mem_singleton] at hc
      subst hc
      exact digitChar_isDigit h
  · rw [pad2, if_neg h]
    exact renderNat_digits b

theorem takeWhile_all_append (p : Char → Bool) : ∀ (xs ys : List Char),
    (∀ c ∈ xs, p c = true) → (∀ c t, ys = c :: t → p c = false) →
    (xs ++ ys).takeWhile p = xs ∧ (xs ++ ys).dropWhile p = ys := by
  intro xs
  induction xs with
  | nil =>
    intro ys _ hys
    cases ys with
    | nil => exact ⟨rfl, rfl⟩
    | cons c t =>
      refine ⟨?_, ?_⟩
      · simp only [List.nil_append, List.takeWhile_cons, hys c t rfl]
        simp
      · simp only [List.nil_append, List.dropWhile_cons, hys c t rfl]
        simp
  | cons a xs ih =>
    intro ys hall hys
    have hpa : p a = true := hall a (List.mem_cons_self a xs)
    have hrec := ih ys (fun c hc => hall c (List.mem_cons_of_mem a hc)) hys
    refine ⟨?_, ?_⟩
    · simp only [List.cons_append, List.takeWhile_cons, hpa]
      simp only [if_true]
      rw [hrec.1]
    · simp only [List.cons_append, List.dropWhile_cons, hpa]
      simp only [if_true]
      exact hrec.2

theorem mem_dropWhile_of_mem {p : Char → Bool} {c : Char} :
    ∀ {l : List Char}, c ∈ l → p c = false → c ∈ l.dropWhile p := by
  intro l
  induction l with
  | nil => intro h _; cases h
  | cons a t ih =>
    intro hc hpc
    by_cases hpa : p a = true
    · rw [List.dropWhile_cons, if_pos hpa]
      rcases List.mem_cons.1 hc with hce | hct
      · subst hce
        rw [hpa] at hpc
        cases hpc
      · exact ih hct hpc
    · rw [List.dropWhile_cons, if_neg hpa]
      exact hc

/-! ### C2: parsing the canonical rendered output -/

theorem unitMultOf_unitName {i : ℕ} (hi : i ≤ 5) :
    unitMultOf (unitName i) = some (1024 ^ i) := by
  interval_cases i <;> rfl

theorem dropWs_space_unit {i : ℕ} (hi : i ≤ 5) :
    (' ' :: unitName i).dropWhile pyIsSpace = unitName i := by
  interval_cases i <;> rfl

theorem normalize_of_match {s : String} {w : Frac} {m : ℕ} (hne : s ≠ "")
    (h : sizeMatchData s.data = some (w, m)) :
    normalize_size_unit s = format_size (w.scale m) := by
  rw [normalize_size_unit, if_neg hne, h]

theorem normalize_of_float {s : String} {w : Frac} (hne : s ≠ "")
    (h1 : sizeMatchData s.data = none) (h2 : pyFloatOfChars s.data = some w) :
    normalize_size_unit s = format_size w := by
  rw [normalize_size_unit, if_neg hne, h1, h2]

theorem normalize_of_none {s : String} (hne : s ≠ "")
    (h1 : sizeMatchData s.data = none) (h2 : pyFloatOfChars s.data = none) :
    normalize_size_unit s = s := by
  rw [normalize_size_unit, if_neg hne, h1, h2]

theorem ne_empty_of_data_ne {s : String} (h : s.data ≠ []) : s ≠ "" := by
  intro hcon
  apply h
  rw [hcon]

theorem sizeMatchData_render2 (n' i : ℕ) (hi : i ≤ 5) :
    sizeMatchData ((renderNat (n' / 100) ++ '.' :: pad2 (n' % 100)) ++ ' ' :: unitName i)
      = some (⟨(n' : ℤ), 100⟩, 1024 ^ i) := by
  have hassoc : (renderNat (n' / 100) ++ '.' :: pad2 (n' % 100)) ++ ' ' :: unitName i
      = renderNat (n' / 100) ++ '.' :: (pad2 (n' % 100) ++ ' ' :: unitName i) := by
    simp [List.append_assoc]
  rw [hassoc]
  obtain ⟨htake, hdrop⟩ := takeWhile_all_append Char.isDigit (renderNat (n' / 100))
    ('.' :: (pad2 (n' % 100) ++ ' ' :: unitName i)) (renderNat_digits _)
    (by intro c t hct; injection hct with h1 _; subst h1; decide)
  obtain ⟨htake2, hdrop2⟩ := takeWhile_all_append Char.isDigit (pad2 (n' % 100)) (' ' :: unitName i)
    pad2_digits (by intro c t hct; injection hct with h1 _; subst h1; decide)
  simp only [sizeMatchData, htake, hdrop]
  rw [if_neg (renderNat_ne_nil _)]
  simp only [htake2, hdrop2]
  rw [dropWs_space_unit hi, unitMultOf_unitName hi]
  simp only [Option.map_some', Option.some.injEq, Prod.mk.injEq, Frac.mk.injEq]
  have hlen : (pad2 (n' % 100)).length = 2 := pad2_len (by omega)
  rw [hlen, digitsVal_renderNat, pad2_val (by omega)]
  refine ⟨⟨?_, by norm_num⟩, trivial⟩
  push_cast
  omega

theorem sizeMatchData_render1 (n' i : ℕ) (hi : i ≤ 5) :
    sizeMatchData ((renderNat (n' / 10) ++ '.' :: [digitChar (n' % 10)]) ++ ' ' :: unitName i)
      = some (⟨(n' : ℤ), 10⟩, 1024 ^ i) := by
  have hassoc : (renderNat (n' / 10) ++ '.' :: [digitChar (n' % 10)]) ++ ' ' :: unitName i
      = renderNat (n' / 10) ++ '.' :: ([digitChar (n' % 10)] ++ ' ' :: unitName i) := by
    simp [List.append_assoc]
  rw [hassoc]
  obtain ⟨htake, hdrop⟩ := takeWhile_all_append Char.isDigit (renderNat (n' / 10))
    ('.' :: ([digitChar (n' % 10)] ++ ' ' :: unitName i)) (renderNat_digits _)
    (by intro c t hct; injection hct with h1 _; subst h1; decide)
  obtain ⟨htake2, hdrop2⟩ := takeWhile_all_append Char.isDigit [digitChar (n' % 10)] (' ' :: unitName i)
    (by
      intro c hc
      rw [List.mem_singleton] at hc
      subst hc
      exact digitChar_isDigit (by omega))
    (by intro c t hct; injection hct with h1 _; subst h1; decide)
  simp only [sizeMatchData, htake, hdrop]
  rw [if_neg (renderNat_ne_nil _)]
  simp only [htake2, hdrop2]
  rw [dropWs_space_unit hi, unitMultOf_unitName hi]
  simp only [Option.map_some', Option.some.injEq, Prod.mk.injEq, Frac.mk.injEq]
  rw [digitsVal_renderNat]
  have hone : digitsVal [digitChar (n' % 10)] = n' % 10 := by
    simp only [digitsVal, List.foldl_cons, List.foldl_nil]
    rw [digitChar_toNat (by omega : n' % 10 < 10)]
    omega
  rw [hone]
  have hlen1 : [digitChar (n' % 10)].length = 1 := rfl
  rw [hlen1]
  refine ⟨⟨?_, by norm_num⟩, trivial⟩
  push_cast
  omega

theorem sizeMatchData_renderInt (n' i : ℕ) (hi : i ≤ 5) :
    sizeMatchData (renderNat n' ++ ' ' :: unitName i)
      = some (⟨(n' : ℤ), 1⟩, 1024 ^ i) := by
  obtain ⟨htake, hdrop⟩ := takeWhile_all_append Char.isDigit (renderNat n') (' ' :: unitName i)
    (renderNat_digits _)
    (by intro c t hct; injection hct with h1 _; subst h1; decide)
  simp only [sizeMatchData, htake, hdrop]
  rw [if_neg (renderNat_ne_nil _)]
  split
  · rename_i t ht
    injection ht with h1 _
    exact absurd h1 (by decide)
  · rw [dropWs_space_unit hi, unitMultOf_unitName hi]
    simp only [Option.map_some', Option.some.injEq, Prod.mk.injEq, Frac.mk.injEq]
    rw [digitsVal_renderNat]
    refine ⟨⟨?_, by norm_num⟩, trivial⟩
    simp [digitsVal]

theorem sizeMatchData_nondigit_head {r : List Char} {c : Char} (hc : c.isDigit = false) :
    sizeMatchData (c :: r) = none := by
  simp [sizeMatchData, List.takeWhile_cons, hc]

/-! ### C2: rounding and truncation bounds -/

theorem qRndHE_le (x : ℚ) : (qRndHE x : ℚ) ≤ x + 1 / 2 := by
  have hfl : (⌊x⌋ : ℚ) ≤ x := Int.floor_le x
  have hfl2 : x - 1 < (⌊x⌋ : ℚ) := Int.sub_one_lt_floor x
  rw [qRndHE]
  split_ifs with h1 h2 h3
  · linarith
  · push_cast
    linarith
  · linarith
  · push_cast
    linarith

theorem le_qRndHE (x : ℚ) : x - 1 / 2 ≤ (qRndHE x : ℚ) := by
  have hfl : (⌊x⌋ : ℚ) ≤ x := Int.floor_le x
  have hfl2 : x - 1 < (⌊x⌋ : ℚ) := Int.sub_one_lt_floor x
  rw [qRndHE]
  split_ifs with h1 h2 h3
  · linarith
  · push_cast
    linarith
  · linarith
  · push_cast
    linarith

theorem qRndHE_intCast (m : ℤ) : qRndHE (m : ℚ) = m := by
  rw [qRndHE, Int.floor_intCast]
  norm_num

theorem qRndHE_nonneg {x : ℚ} (h : 0 ≤ x) : 0 ≤ qRndHE x := by
  have h2 := le_qRndHE x
  by_contra hneg
  push_neg at hneg
  have h4 : qRndHE x ≤ -1 := by omega
  have h3 : (qRndHE x : ℚ) ≤ -1 := by exact_mod_cast h4
  linarith

theorem qTrunc_intCast (m : ℤ) : qTrunc (m : ℚ) = m := by
  rw [qTrunc]
  split_ifs with h
  · rw [← Int.cast_neg, Int.floor_intCast]
    omega
  · rw [Int.floor_intCast]

theorem qTrunc_nonneg_eq {x : ℚ} (h : 0 ≤ x) : qTrunc x = ⌊x⌋ := by
  rw [qTrunc, if_neg (not_lt.2 h)]

/-! ### C2: ladder-index evaluation and rescaling -/

theorem ladderIdx_eq0 {x : ℚ} (h : x < 1024) : ladderIdx x = 0 := by
  rw [ladderIdx, if_pos h]

theorem ladderIdx_eq1 {x : ℚ} (h0 : ¬ x < 1024) (h1 : x < 1024 ^ 2) :
    ladderIdx x = 1 := by
  rw [ladderIdx, if_neg h0, if_pos h1]

theorem ladderIdx_eq2 {x : ℚ} (h0 : ¬ x < 1024) (h1 : ¬ x < 1024 ^ 2)
    (h2 : x < 1024 ^ 3) : ladderIdx x = 2 := by
  rw [ladderIdx, if_neg h0, if_neg h1, if_pos h2]

theorem ladderIdx_eq3 {x : ℚ} (h0 : ¬ x < 1024) (h1 : ¬ x < 1024 ^ 2)
    (h2 : ¬ x < 1024 ^ 3) (h3 : x < 1024 ^ 4) : ladderIdx x = 3 := by
  rw [ladderIdx, if_neg h0, if_neg h1, if_neg h2, if_pos h3]

theorem ladderIdx_eq4 {x : ℚ} (h0 : ¬ x < 1024) (h1 : ¬ x < 1024 ^ 2)
    (h2 : ¬ x < 1024 ^ 3) (h3 : ¬ x < 1024 ^ 4) (h4 : x < 1024 ^ 5) :
    ladderIdx x = 4 := by
  rw [ladderIdx, if_neg h0, if_neg h1, if_neg h2, if_neg h3, if_pos h4]

theorem ladderIdx_eq5 {x : ℚ} (h0 : ¬ x < 1024) (h1 : ¬ x < 1024 ^ 2)
    (h2 : ¬ x < 1024 ^ 3) (h3 : ¬ x < 1024 ^ 4) (h4 : ¬ x < 1024 ^ 5) :
    ladderIdx x = 5 := by
  rw [ladderIdx, if_neg h0, if_neg h1, if_neg h2, if_neg h3, if_neg h4]

theorem specPair_bounds {x v : ℚ} {i : ℕ} (hx : 0 ≤ x) (h : specPair x = (v, i)) :
    0 ≤ v ∧ i ≤ 5 ∧ (i ≤ 4 → v < 1024) ∧ ((i = 2 ∨ i = 3) → v < 1000)
  ∧ (1 ≤ i → 1000 / 1024 ≤ v) ∧ ((i = 1 ∨ i = 2 ∨ i = 5) → 1 ≤ v) := by
  have hq : (1000 : ℚ) / 1024 ≤ 1 := by norm_num
  by_cases h0 : x < 1024
  · simp only [specPair, ladderIdx_eq0 h0] at h
    rw [if_neg (by rintro ⟨hc, -⟩; omega)] at h
    rw [Prod.mk.injEq] at h
    obtain ⟨hv, hi⟩ := h
    subst hv
    subst hi
    refine ⟨by positivity, by norm_num, fun _ => ?_, fun hc => absurd hc (by omega),
      fun hc => absurd hc (by omega), fun hc => absurd hc (by omega)⟩
    rw [div_lt_iff₀ (by positivity)]
    norm_num
    linarith
  · have h0' := not_lt.1 h0
    by_cases h1 : x < 1024 ^ 2
    · simp only [specPair, ladderIdx_eq1 h0 h1] at h
      rw [if_neg (by rintro ⟨hc, -⟩; omega)] at h
      rw [Prod.mk.injEq] at h
      obtain ⟨hv, hi⟩ := h
      subst hv
      subst hi
      have hv1 : 1 ≤ x / 1024 ^ 1 := by
        rw [le_div_iff₀ (by positivity)]
        norm_num
        linarith
      refine ⟨by positivity, by norm_num, fun _ => ?_, fun hc => absurd hc (by omega),
        fun _ => by linarith, fun _ => hv1⟩
      rw [div_lt_iff₀ (by positivity)]
      norm_num at h1 ⊢
      linarith
    · have h1' := not_lt.1 h1
      by_cases h2 : x < 1024 ^ 3
      · by_cases hesc : (1000 : ℚ) ≤ x / 1024 ^ 2
        · simp only [specPair, ladderIdx_eq2 h0 h1 h2] at h
          rw [if_pos ⟨by norm_num, hesc⟩] at h
          rw [Prod.mk.injEq] at h
          obtain ⟨hv, hi⟩ := h
          subst hv
          subst hi
          have hup : x / 1024 ^ 2 < 1024 := by
            rw [div_lt_iff₀ (by positivity)]
            norm_num at h2 ⊢
            linarith
          have hlow : (1000 : ℚ) / 1024 ≤ x / 1024 ^ 2 / 1024 := by
            rw [div_le_div_iff₀ (by norm_num) (by norm_num)]
            linarith
          refine ⟨by positivity, by norm_num, fun _ => ?_, fun _ => ?_,
            fun _ => hlow, fun hc => absurd hc (by omega)⟩
          · rw [div_lt_iff₀ (by norm_num)]
            linarith
          · rw [div_lt_iff₀ (by norm_num)]
            linarith
        · simp only [specPair, ladderIdx_eq2 h0 h1 h2] at h
          rw [if_neg (fun hc => hesc hc.2)] at h
          rw [Prod.mk.injEq] at h
          obtain ⟨hv, hi⟩ := h
          subst hv
          subst hi
          have hv1 : 1 ≤ x / 1024 ^ 2 := by
            rw [le_div_iff₀ (by positivity)]
            norm_num at h1' ⊢
            linarith
          have hup := not_le.1 hesc
          refine ⟨by positivity, by norm_num, fun _ => by linarith, fun _ => hup,
            fun _ => by linarith, fun _ => hv1⟩
      · have h2' := not_lt.1 h2
        by_cases h3 : x < 1024 ^ 4
        · by_cases hesc : (1000 : ℚ) ≤ x / 1024 ^ 3
          · simp only [specPair, ladderIdx_eq3 h0 h1 h2 h3] at h
            rw [if_pos ⟨by norm_num, hesc⟩] at h
            rw [Prod.mk.injEq] at h
            obtain ⟨hv, hi⟩ := h
            subst hv
            subst hi
            have hup : x / 1024 ^ 3 < 1024 := by
              rw [div_lt_iff₀ (by positivity)]
              norm_num at h3 ⊢
              linarith
            have hlow : (1000 : ℚ) / 1024 ≤ x / 1024 ^ 3 / 1024 := by
              rw [div_le_div_iff₀ (by norm_num) (by norm_num)]
              linarith
            refine ⟨by positivity, by norm_num, fun _ => ?_, fun hc => absurd hc (by omega),
              fun _ => hlow, fun hc => absurd hc (by omega)⟩
            rw [div_lt_iff₀ (by norm_num)]
            linarith
          · simp only [specPair, ladderIdx_eq3 h0 h1 h2 h3] at h
            rw [if_neg (fun hc => hesc hc.2)] at h
            rw [Prod.mk.injEq] at h
            obtain ⟨hv, hi⟩ := h
            subst hv
            subst hi
            have hv1 : 1 ≤ x / 1024 ^ 3 := by
              rw [le_div_iff₀ (by positivity)]
              norm_num at h2' ⊢
              linarith
            have hup := not_le.1 hesc
            refine ⟨by positivity, by norm_num, fun _ => by linarith, fun _ => hup,
              fun _ => by linarith, fun hc => absurd hc (by omega)⟩
        · have h3' := not_lt.1 h3
          by_cases h4 : x < 1024 ^ 5
          · simp only [specPair, ladderIdx_eq4 h0 h1 h2 h3 h4] at h
            rw [if_neg (by rintro ⟨hc, -⟩; omega)] at h
            rw [Prod.mk.injEq] at h
            obtain ⟨hv, hi⟩ := h
            subst hv
            subst hi
            have hv1 : 1 ≤ x / 1024 ^ 4 := by
              rw [le_div_iff₀ (by positivity)]
              norm_num at h3' ⊢
              linarith
            refine ⟨by positivity, by norm_num, fun _ => ?_, fun hc => absurd hc (by omega),
              fun _ => by linarith, fun hc => absurd hc (by omega)⟩
            rw [div_lt_iff₀ (by positivity)]
            norm_num at h4 ⊢
            linarith
          · have h4' := not_lt.1 h4
            simp only [specPair, ladderIdx_eq5 h0 h1 h2 h3 h4] at h
            rw [if_neg (by rintro ⟨hc, -⟩; omega)] at h
            rw [Prod.mk.injEq] at h
            obtain ⟨hv, hi⟩ := h
            subst hv
            subst hi
            have hv1 : 1 ≤ x / 1024 ^ 5 := by
              rw [le_div_iff₀ (by positivity)]
              norm_num at h4' ⊢
              linarith
            refine ⟨by positivity, by norm_num, fun hc => absurd hc (by omega),
              fun hc => absurd hc (by omega), fun _ => by linarith, fun _ => hv1⟩

theorem specPair_small0 {d : ℚ} (h2 : d < 1024) : specPair d = (d, 0) := by
  have hidx := ladderIdx_eq0 h2
  simp only [specPair, hidx]
  rw [if_neg (by simp)]
  norm_num

theorem specPair_neg {x : ℚ} (hx : x < 0) : specPair x = (x, 0) :=
  specPair_small0 (by linarith)

theorem specPair_rescale {d : ℚ} {i : ℕ} (hi : i ≤ 5) (h1 : 1 ≤ d)
    (h2 : i ≤ 4 → d < 1024) (h3 : (i = 2 ∨ i = 3) → d < 1000) :
    specPair (d * 1024 ^ i) = (d, i) := by
  interval_cases i
  · have hlt := h2 (by norm_num)
    have hidx : ladderIdx (d * 1024 ^ 0) = 0 :=
      ladderIdx_eq0 (by rw [pow_zero, mul_one]; exact hlt)
    have hvv : d * 1024 ^ 0 / 1024 ^ 0 = d := mul_div_cancel_right₀ d (by positivity)
    simp only [specPair, hidx]
    rw [hvv, if_neg (by simp)]
  · have hlt := h2 (by norm_num)
    have hidx : ladderIdx (d * 1024 ^ 1) = 1 :=
      ladderIdx_eq1 (by rw [not_lt]; nlinarith) (by nlinarith)
    have hvv : d * 1024 ^ 1 / 1024 ^ 1 = d := mul_div_cancel_right₀ d (by positivity)
    simp only [specPair, hidx]
    rw [hvv, if_neg (by simp)]
  · have hlt := h2 (by norm_num)
    have hd1000 := h3 (Or.inl rfl)
    have hidx : ladderIdx (d * 1024 ^ 2) = 2 :=
      ladderIdx_eq2 (by rw [not_lt]; nlinarith) (by rw [not_lt]; nlinarith) (by nlinarith)
    have hvv : d * 1024 ^ 2 / 1024 ^ 2 = d := mul_div_cancel_right₀ d (by positivity)
    simp only [specPair, hidx]
    rw [hvv, if_neg (fun hc => absurd hc.2 (not_le.2 hd1000))]
  · have hlt := h2 (by norm_num)
    have hd1000 := h3 (Or.inr rfl)
    have hidx : ladderIdx (d * 1024 ^ 3) = 3 :=
      ladderIdx_eq3 (by rw [not_lt]; nlinarith) (by rw [not_lt]; nlinarith)
        (by rw [not_lt]; nlinarith) (by nlinarith)
    have hvv : d * 1024 ^ 3 / 1024 ^ 3 = d := mul_div_cancel_right₀ d (by positivity)
    simp only [specPair, hidx]
    rw [hvv, if_neg (fun hc => absurd hc.2 (not_le.2 hd1000))]
  · have hlt := h2 (by norm_num)
    have hidx : ladderIdx (d * 1024 ^ 4) = 4 :=
      ladderIdx_eq4 (by rw [not_lt]; nlinarith) (by rw [not_lt]; nlinarith)
        (by rw [not_lt]; nlinarith) (by rw [not_lt]; nlinarith) (by nlinarith)
    have hvv : d * 1024 ^ 4 / 1024 ^ 4 = d := mul_div_cancel_right₀ d (by positivity)
    simp only [specPair, hidx]
    rw [hvv, if_neg (by simp)]
  · have hidx : ladderIdx (d * 1024 ^ 5) = 5 :=
      ladderIdx_eq5 (by rw [not_lt]; nlinarith) (by rw [not_lt]; nlinarith)
        (by rw [not_lt]; nlinarith) (by rw [not_lt]; nlinarith) (by rw [not_lt]; nlinarith)
    have hvv : d * 1024 ^ 5 / 1024 ^ 5 = d := mul_div_cancel_right₀ d (by positivity)
    simp only [specPair, hidx]
    rw [hvv, if_neg (by simp)]

theorem specPair_rescale_frac {d : ℚ} {i : ℕ} (hi : i = 3 ∨ i = 4)
    (h1 : 1000 / 1024 ≤ d) (h2 : d < 1) :
    specPair (d * 1024 ^ i) = (d, i) := by
  have hd0 : 0 < d := by
    have : (0 : ℚ) < 1000 / 1024 := by norm_num
    linarith
  rcases hi with rfl | rfl
  · have hidx : ladderIdx (d * 1024 ^ 3) = 2 :=
      ladderIdx_eq2 (by rw [not_lt]; nlinarith) (by rw [not_lt]; nlinarith) (by nlinarith)
    have hvv : d * 1024 ^ 3 / 1024 ^ 2 = d * 1024 := by
      field_simp
      ring
    simp only [specPair, hidx]
    rw [hvv, if_pos ⟨by norm_num, by nlinarith⟩]
    rw [Prod.mk.injEq]
    refine ⟨?_, by norm_num⟩
    field_simp
  · have hidx : ladderIdx (d * 1024 ^ 4) = 3 :=
      ladderIdx_eq3 (by rw [not_lt]; nlinarith) (by rw [not_lt]; nlinarith)
        (by rw [not_lt]; nlinarith) (by nlinarith)
    have hvv : d * 1024 ^ 4 / 1024 ^ 3 = d * 1024 := by
      field_simp
      ring
    simp only [specPair, hidx]
    rw [hvv, if_pos ⟨by norm_num, by nlinarith⟩]
    rw [Prod.mk.injEq]
    refine ⟨?_, by norm_num⟩
    field_simp

/-! ### C2: re-rendering stability per precision band -/

theorem spec_stable2 {x v : ℚ} {i : ℕ} (hx : 0 ≤ x) (hsp : specPair x = (v, i))
    (hband : v < 10) (hnb : qRndHE (100 * v) ≠ 1000) :
    specFormatSize ((qRndHE (100 * v) : ℚ) / 100 * 1024 ^ i) = specFormatSize x := by
  obtain ⟨hv0, hi5, hlt1024, hlt1000, hgefrac, hge1⟩ := specPair_bounds hx hsp
  set n : ℤ := qRndHE (100 * v) with hn
  have hn0 : 0 ≤ n := qRndHE_nonneg (by positivity)
  have hnle : (n : ℚ) ≤ 100 * v + 1 / 2 := qRndHE_le _
  have hnge : 100 * v - 1 / 2 ≤ (n : ℚ) := le_qRndHE _
  set d : ℚ := (n : ℚ) / 100 with hd
  have hn0q : (0 : ℚ) ≤ (n : ℚ) := by exact_mod_cast hn0
  have hd0 : 0 ≤ d := by rw [hd]; positivity
  have hdub : d ≤ v + 1 / 200 := by rw [hd]; linarith
  have hdlb : v - 1 / 200 ≤ d := by rw [hd]; linarith
  have hd10 : d < 10 := by
    have hn1000 : n ≤ 1000 := by
      by_contra hc
      push_neg at hc
      have hq : (1001 : ℚ) ≤ (n : ℚ) := by exact_mod_cast hc
      linarith
    have hn999 : n ≤ 999 := by omega
    have hq : (n : ℚ) ≤ 999 := by exact_mod_cast hn999
    rw [hd]
    linarith
  have hpair : specPair (d * 1024 ^ i) = (d, i) := by
    by_cases hi0 : i = 0
    · subst hi0
      have h24 := specPair_small0 (show d < 1024 by linarith)
      rw [pow_zero, mul_one]
      exact h24
    · have hvf : 1000 / 1024 ≤ v := hgefrac (by omega)
      have hn98 : (98 : ℤ) ≤ n := by
        by_contra hc
        push_neg at hc
        have hq : (n : ℚ) ≤ 97 := by exact_mod_cast (by omega : n ≤ 97)
        have h1000 : (1000 : ℚ) / 1024 * 100 ≤ 100 * v := by linarith
        norm_num at h1000
        linarith
      have hd98 : (98 : ℚ) / 100 ≤ d := by
        rw [hd]
        have hq : (98 : ℚ) ≤ (n : ℚ) := by exact_mod_cast hn98
        linarith
      by_cases hd1 : 1 ≤ d
      · exact specPair_rescale hi5 hd1 (fun _ => by linarith) (fun _ => by linarith)
      · push_neg at hd1
        have hi34 : i = 3 ∨ i = 4 := by
          by_contra hcon
          push_neg at hcon
          have hv1 : 1 ≤ v := hge1 (by omega)
          have hn100 : (100 : ℤ) ≤ n := by
            by_contra hc2
            push_neg at hc2
            have hq : (n : ℚ) ≤ 99 := by exact_mod_cast (by omega : n ≤ 99)
            linarith
          have hq : (100 : ℚ) ≤ (n : ℚ) := by exact_mod_cast hn100
          have : 1 ≤ d := by rw [hd]; linarith
          linarith
        exact specPair_rescale_frac hi34 (by linarith [show (1000:ℚ)/1024 ≤ 98/100 by norm_num]) hd1
  rw [specFormatSize_pair hpair, specFormatSize_pair hsp]
  rw [if_pos hd10, if_pos hband]
  have hfmt : qFmt2 d = qFmt2 v := by
    simp only [qFmt2]
    have h100d : (100 : ℚ) * d = (n : ℚ) := by
      rw [hd]
      field_simp
    rw [h100d, qRndHE_intCast, ← hn]
  rw [hfmt]

theorem spec_stable1 {x v : ℚ} {i : ℕ} (hx : 0 ≤ x) (hsp : specPair x = (v, i))
    (hband1 : ¬ v < 10) (hband2 : v < 100) (hnb : qRndHE (10 * v) ≠ 1000) :
    specFormatSize ((qRndHE (10 * v) : ℚ) / 10 * 1024 ^ i) = specFormatSize x := by
  obtain ⟨hv0, hi5, hlt1024, hlt1000, hgefrac, hge1⟩ := specPair_bounds hx hsp
  rw [not_lt] at hband1
  set n : ℤ := qRndHE (10 * v) with hn
  have hnle : (n : ℚ) ≤ 10 * v + 1 / 2 := qRndHE_le _
  have hnge : 10 * v - 1 / 2 ≤ (n : ℚ) := le_qRndHE _
  have hn100 : (100 : ℤ) ≤ n := by
    by_contra hc
    push_neg at hc
    have hq : (n : ℚ) ≤ 99 := by exact_mod_cast (by omega : n ≤ 99)
    linarith
  have hn999 : n ≤ 999 := by
    have hn1000 : n ≤ 1000 := by
      by_contra hc
      push_neg at hc
      have hq : (1001 : ℚ) ≤ (n : ℚ) := by exact_mod_cast hc
      linarith
    omega
  set d : ℚ := (n : ℚ) / 10 with hd
  have hq100 : (100 : ℚ) ≤ (n : ℚ) := by exact_mod_cast hn100
  have hq999 : (n : ℚ) ≤ 999 := by exact_mod_cast hn999
  have hd10 : 10 ≤ d := by rw [hd]; linarith
  have hd100 : d < 100 := by rw [hd]; linarith
  have hpair : specPair (d * 1024 ^ i) = (d, i) :=
    specPair_rescale hi5 (by linarith) (fun _ => by linarith) (fun _ => by linarith)
  rw [specFormatSize_pair hpair, specFormatSize_pair hsp]
  rw [if_neg (not_lt.2 hd10), if_neg (not_lt.2 hband1), if_pos hd100, if_pos hband2]
  have hfmt : qFmt1 d = qFmt1 v := by
    simp only [qFmt1]
    have h10d : (10 : ℚ) * d = (n : ℚ) := by
      rw [hd]
      field_simp
    rw [h10d, qRndHE_intCast, ← hn]
  rw [hfmt]

theorem spec_stableInt {x v : ℚ} {i : ℕ} (hx : 0 ≤ x) (hsp : specPair x = (v, i))
    (hband : ¬ v < 100) :
    specFormatSize ((qTrunc v : ℚ) * 1024 ^ i) = specFormatSize x := by
  obtain ⟨hv0, hi5, hlt1024, hlt1000, hgefrac, hge1⟩ := specPair_bounds hx hsp
  rw [not_lt] at hband
  have htr : qTrunc v = ⌊v⌋ := qTrunc_nonneg_eq (by linarith)
  have hfle : ((⌊v⌋ : ℤ) : ℚ) ≤ v := Int.floor_le v
  have hd100 : (100 : ℚ) ≤ ((⌊v⌋ : ℤ) : ℚ) := by
    have h100 : (100 : ℤ) ≤ ⌊v⌋ := Int.le_floor.2 (by exact_mod_cast hband)
    exact_mod_cast h100
  have hpair : specPair (((⌊v⌋ : ℤ) : ℚ) * 1024 ^ i) = (((⌊v⌋ : ℤ) : ℚ), i) := by
    refine specPair_rescale hi5 (by linarith) (fun h4 => ?_) (fun h23 => ?_)
    · have := hlt1024 h4
      linarith
    · have := hlt1000 h23
      linarith
  rw [htr, specFormatSize_pair hpair, specFormatSize_pair hsp]
  rw [if_neg (by push_neg; linarith), if_neg (by push_neg; linarith),
    if_neg (by push_neg; linarith), if_neg (by push_neg; linarith)]
  have h1 : qTrunc ((⌊v⌋ : ℤ) : ℚ) = ⌊v⌋ := qTrunc_intCast _
  rw [h1, htr]

/-! ### C2: the canonical rendering reparsed -/

theorem specFormatSize_chars2 {x v : ℚ} {i : ℕ} (hsp : specPair x = (v, i))
    (hband : v < 10) (hn0 : 0 ≤ qRndHE (100 * v)) :
    (specFormatSize x).data
      = (renderNat ((qRndHE (100 * v)).natAbs / 100) ++
          '.' :: pad2 ((qRndHE (100 * v)).natAbs % 100)) ++ ' ' :: unitName i := by
  rw [specFormatSize_pair hsp, if_pos hband]
  show qFmt2 v ++ ' ' :: unitName i = _
  simp only [qFmt2]
  rw [if_neg (not_lt.2 hn0)]
  simp only [List.nil_append]

theorem specFormatSize_chars1 {x v : ℚ} {i : ℕ} (hsp : specPair x = (v, i))
    (hb1 : ¬ v < 10) (hb2 : v < 100) (hn0 : 0 ≤ qRndHE (10 * v)) :
    (specFormatSize x).data
      = (renderNat ((qRndHE (10 * v)).natAbs / 10) ++
          '.' :: [digitChar ((qRndHE (10 * v)).natAbs % 10)]) ++ ' ' :: unitName i := by
  rw [specFormatSize_pair hsp, if_neg hb1, if_pos hb2]
  show qFmt1 v ++ ' ' :: unitName i = _
  simp only [qFmt1]
  rw [if_neg (not_lt.2 hn0)]
  simp only [List.nil_append]

theorem specFormatSize_charsInt {x v : ℚ} {i : ℕ} (hsp : specPair x = (v, i))
    (hb : ¬ v < 100) (hnn : 0 ≤ v) :
    (specFormatSize x).data = renderNat (qTrunc v).natAbs ++ ' ' :: unitName i := by
  have h10 : ¬ v < 10 := by
    push_neg at hb ⊢
    linarith
  rw [specFormatSize_pair hsp, if_neg h10, if_neg hb]
  show renderInt (qTrunc v) ++ ' ' :: unitName i = _
  have htr : qTrunc v = ⌊v⌋ := qTrunc_nonneg_eq hnn
  rw [renderInt, if_neg (by rw [htr]; exact not_lt.2 (Int.floor_nonneg.2 hnn))]

theorem normalize_stable {x : ℚ} (hx : 0 ≤ x)
    (hp1 : ¬ ("10.00 ".data.isPrefixOf (specFormatSize x).data = true))
    (hp2 : ¬ ("100.0 ".data.isPrefixOf (specFormatSize x).data = true)) :
    normalize_size_unit (specFormatSize x) = specFormatSize x := by
  obtain ⟨v, i, hsp⟩ : ∃ v i, specPair x = (v, i) := ⟨_, _, rfl⟩
  obtain ⟨hv0, hi5, hc3, hc4, hc5, hc6⟩ := specPair_bounds hx hsp
  by_cases hband2 : v < 10
  · have hn0 : 0 ≤ qRndHE (100 * v) := qRndHE_nonneg (by positivity)
    have hchars := specFormatSize_chars2 hsp hband2 hn0
    set n : ℤ := qRndHE (100 * v) with hn
    have hne : specFormatSize x ≠ "" := by
      apply ne_empty_of_data_ne
      rw [hchars]
      simp [renderNat_ne_nil]
    have hnb : n ≠ 1000 := by
      intro hcon
      apply hp1
      rw [hchars, hcon]
      interval_cases i <;> decide
    have hmatch := sizeMatchData_render2 n.natAbs i hi5
    rw [← hchars] at hmatch
    rw [normalize_of_match hne hmatch]
    have hden : 0 < ((⟨(n.natAbs : ℤ), 100⟩ : Frac).scale (1024 ^ i)).den := by
      rw [Frac.den_scale]
      norm_num
    rw [format_size_eq_spec _ hden]
    have hval : ((⟨(n.natAbs : ℤ), 100⟩ : Frac).scale (1024 ^ i)).toRat
        = (n : ℚ) / 100 * 1024 ^ i := by
      rw [Frac.toRat_scale]
      simp only [Frac.toRat]
      push_cast [Int.natAbs_of_nonneg hn0]
      ring
    rw [hval]
    exact spec_stable2 hx hsp hband2 hnb
  · by_cases hband1 : v < 100
    · have hn0 : 0 ≤ qRndHE (10 * v) := qRndHE_nonneg (by positivity)
      have hchars := specFormatSize_chars1 hsp hband2 hband1 hn0
      set n : ℤ := qRndHE (10 * v) with hn
      have hne : specFormatSize x ≠ "" := by
        apply ne_empty_of_data_ne
        rw [hchars]
        simp [renderNat_ne_nil]
      have hnb : n ≠ 1000 := by
        intro hcon
        apply hp2
        rw [hchars, hcon]
        interval_cases i <;> decide
      have hmatch := sizeMatchData_render1 n.natAbs i hi5
      rw [← hchars] at hmatch
      rw [normalize_of_match hne hmatch]
      have hden : 0 < ((⟨(n.natAbs : ℤ), 10⟩ : Frac).scale (1024 ^ i)).den := by
        rw [Frac.den_scale]
        norm_num
      rw [format_size_eq_spec _ hden]
      have hval : ((⟨(n.natAbs : ℤ), 10⟩ : Frac).scale (1024 ^ i)).toRat
          = (n : ℚ) / 10 * 1024 ^ i := by
        rw [Frac.toRat_scale]
        simp only [Frac.toRat]
        push_cast [Int.natAbs_of_nonneg hn0]
        ring
      rw [hval]
      exact spec_stable1 hx hsp hband2 hband1 hnb
    · have htr : qTrunc v = ⌊v⌋ := qTrunc_nonneg_eq hv0
      have htr0 : 0 ≤ qTrunc v := by
        rw [htr]
        exact Int.floor_nonneg.2 hv0
      have hchars := specFormatSize_charsInt hsp hband1 hv0
      have hne : specFormatSize x ≠ "" := by
        apply ne_empty_of_data_ne
        rw [hchars]
        simp [renderNat_ne_nil]
      have hmatch := sizeMatchData_renderInt (qTrunc v).natAbs i hi5
      rw [← hchars] at hmatch
      rw [normalize_of_match hne hmatch]
      have hden : 0 < ((⟨((qTrunc v).natAbs : ℤ), 1⟩ : Frac).scale (1024 ^ i)).den := by
        rw [Frac.den_scale]
        norm_num
      rw [format_size_eq_spec _ hden]
      have hval : ((⟨((qTrunc v).natAbs : ℤ), 1⟩ : Frac).scale (1024 ^ i)).toRat
          = (qTrunc v : ℚ) * 1024 ^ i := by
        rw [Frac.toRat_scale]
        simp only [Frac.toRat]
        push_cast [Int.natAbs_of_nonneg htr0]
        ring
      rw [hval]
      exact spec_stableInt hx hsp hband1

/-! ### C2: negative values and unparsed fixed points -/

theorem pyFloatExp_some (m : Int) (fl : ℕ) (r : List Char) (v : Frac)
    (h : pyFloatExp m fl r = some v) : 0 < v.den := by
  simp only [pyFloatExp] at h
  split at h
  · exact absurd h (by simp)
  · split at h
    · injection h with h'
      rw [← h']
      positivity
    · injection h with h'
      rw [← h']
      positivity

theorem pyFloatOfChars_some (l : List Char) (v : Frac)
    (h : pyFloatOfChars l = some v) : 0 < v.den := by
  simp only [pyFloatOfChars] at h
  split at h
  · exact absurd h (by simp)
  · split at h
    · exact pyFloatExp_some _ _ _ _ h
    · exact pyFloatExp_some _ _ _ _ h
    · split at h
      · injection h with h'
        rw [← h']
        positivity
      · exact absurd h (by simp)

theorem specFormatSize_neg_zero {x : ℚ} (hx : x < 0) (hn : qRndHE (100 * x) = 0) :
    specFormatSize x = "0.00 B" := by
  rw [specFormatSize_pair (specPair_neg hx), if_pos (by linarith : x < 10)]
  have hf : qFmt2 x = '0' :: '.' :: ['0', '0'] := by
    simp only [qFmt2, hn]
    decide
  rw [hf]
  decide

theorem specFormatSize_chars_neg {x : ℚ} (hx : x < 0) (hn : qRndHE (100 * x) < 0) :
    (specFormatSize x).data
      = '-' :: (renderNat ((qRndHE (100 * x)).natAbs / 100) ++
          '.' :: (pad2 ((qRndHE (100 * x)).natAbs % 100) ++ ' ' :: ['B'])) := by
  rw [specFormatSize_pair (specPair_neg hx), if_pos (by linarith : x < 10)]
  show qFmt2 x ++ ' ' :: unitName 0 = _
  simp only [qFmt2]
  rw [if_pos hn]
  simp only [List.append_assoc, List.cons_append, List.singleton_append]
  rfl

theorem pyFloatOfChars_dash_none (A P : List Char) (hA : ∀ c ∈ A, c.isDigit = true)
    (hP : ∀ c ∈ P, c.isDigit = true) :
    pyFloatOfChars ('-' :: (A ++ '.' :: (P ++ ' ' :: ['B']))) = none := by
  obtain ⟨htake, hdrop⟩ := takeWhile_all_append Char.isDigit A ('.' :: (P ++ ' ' :: ['B'])) hA
    (by intro c t hct; injection hct with h1 _; subst h1; decide)
  obtain ⟨htake2, hdrop2⟩ := takeWhile_all_append Char.isDigit P (' ' :: ['B']) hP
    (by intro c t hct; injection hct with h1 _; subst h1; decide)
  have hws : List.dropWhile pyIsSpace ('-' :: (A ++ '.' :: (P ++ ' ' :: ['B'])))
      = '-' :: (A ++ '.' :: (P ++ ' ' :: ['B'])) := by
    rw [List.dropWhile_cons, if_neg (by decide)]
  simp only [pyFloatOfChars, hws, htake, hdrop, htake2, hdrop2]
  by_cases hcd : A = [] ∧ P = []
  · rw [if_pos hcd]
  · rw [if_neg hcd]
    split
    · rename_i r2 hr2
      exact absurd hr2 (by intro hcon; injection hcon with h1 _; exact absurd h1 (by decide))
    · rename_i r2 hr2
      exact absurd hr2 (by intro hcon; injection hcon with h1 _; exact absurd h1 (by decide))
    · rw [if_neg (by decide)]

theorem normalize_stable_neg {x : ℚ} (hx : x < 0) :
    normalize_size_unit (specFormatSize x) = specFormatSize x := by
  have hnle : (qRndHE (100 * x) : ℚ) ≤ 100 * x + 1 / 2 := qRndHE_le _
  have hn0 : qRndHE (100 * x) ≤ 0 := by
    by_contra hc
    push_neg at hc
    have h1 : (1 : ℚ) ≤ (qRndHE (100 * x) : ℚ) := by exact_mod_cast hc
    linarith
  rcases eq_or_lt_of_le hn0 with heq | hlt
  · rw [specFormatSize_neg_zero hx heq]
    decide
  · have hchars := specFormatSize_chars_neg hx hlt
    have hne : specFormatSize x ≠ "" := by
      apply ne_empty_of_data_ne
      rw [hchars]
      simp
    have hsm : sizeMatchData (specFormatSize x).data = none := by
      rw [hchars]
      exact sizeMatchData_nondigit_head (by decide)
    have hfl : pyFloatOfChars (specFormatSize x).data = none := by
      rw [hchars]
      exact pyFloatOfChars_dash_none _ _ (renderNat_digits _) pad2_digits
    exact normalize_of_none hne hsm hfl

/-! ### C2: `format_hours` is a fixed point on its own output -/

theorem suffix_letter_mem (l : List Char) (suf : String) (c : Char) (hc : c ∈ suf.data) :
    c ∈ ((⟨l⟩ : String) ++ suf).data := by
  rw [String.data_append]
  exact List.mem_append.2 (Or.inr hc)

theorem joinSpace_mem {c : Char} : ∀ {L : List String} {p : String},
    p ∈ L → c ∈ p.data → c ∈ (joinSpace L).data := by
  intro L
  induction L with
  | nil => intro p hp _; cases hp
  | cons q rest ih =>
    intro p hp hc
    cases rest with
    | nil =>
      rw [List.mem_singleton] at hp
      subst hp
      exact hc
    | cons r rr =>
      have hj : joinSpace (q :: r :: rr) = q ++ " " ++ joinSpace (r :: rr) := rfl
      rw [hj, String.data_append, String.data_append]
      rcases List.mem_cons.1 hp with hpq | hpr
      · subst hpq
        exact List.mem_append.2 (Or.inl (List.mem_append.2 (Or.inl hc)))
      · exact List.mem_append.2 (Or.inr (ih hpr hc))

theorem format_hours_parts_spec (h : ℤ) :
    ∃ p ∈ format_hours_parts h, ∃ c ∈ p.data, c = 'y' ∨ c = 'm' ∨ c = 'd' ∨ c = 's' := by
  by_cases hcy : 0 < h.ediv (365 * 24)
  · refine ⟨⟨renderInt (h.ediv (365 * 24))⟩ ++ "y", ?_, 'y',
      suffix_letter_mem _ _ _ (by decide), by tauto⟩
    simp only [format_hours_parts]
    rw [if_pos hcy]
    split_ifs <;> simp
  · by_cases hcm : 0 < (h.emod (365 * 24)).ediv (30 * 24)
    · refine ⟨⟨renderInt ((h.emod (365 * 24)).ediv (30 * 24))⟩ ++ "m", ?_, 'm',
        suffix_letter_mem _ _ _ (by decide), by tauto⟩
      simp only [format_hours_parts]
      rw [if_neg hcy, if_pos hcm]
      split_ifs <;> simp
    · by_cases hcd2 : 0 < ((h.emod (365 * 24)).emod (30 * 24)).ediv 24
      · refine ⟨⟨renderInt (((h.emod (365 * 24)).emod (30 * 24)).ediv 24)⟩ ++ "d", ?_, 'd',
          suffix_letter_mem _ _ _ (by decide), by tauto⟩
        simp only [format_hours_parts]
        rw [if_neg hcy, if_neg hcm, if_pos hcd2]
        split_ifs <;> simp
      · refine ⟨⟨renderInt (((h.emod (365 * 24)).emod (30 * 24)).emod 24)⟩ ++ "hrs", ?_, 's',
          suffix_letter_mem _ _ _ (by decide), by tauto⟩
        simp only [format_hours_parts]
        rw [if_neg hcy, if_neg hcm, if_neg hcd2, if_pos (Or.inr rfl)]
        simp

theorem pyIntOfChars_letter_none {l : List Char} {c : Char} (hc : c ∈ l)
    (h1 : c.isDigit = false) (h2 : pyIsSpace c = false) (h3 : c ≠ '-') (h4 : c ≠ '+') :
    pyIntOfChars l = none := by
  have hmem1 : c ∈ l.dropWhile pyIsSpace := mem_dropWhile_of_mem hc h2
  have hmem2 : c ∈ ((l.dropWhile pyIsSpace).reverse).dropWhile pyIsSpace :=
    mem_dropWhile_of_mem (List.mem_reverse.2 hmem1) h2
  have hmem3 : c ∈ (((l.dropWhile pyIsSpace).reverse).dropWhile pyIsSpace).reverse :=
    List.mem_reverse.2 hmem2
  simp only [pyIntOfChars]
  cases htt : (((l.dropWhile pyIsSpace).reverse).dropWhile pyIsSpace).reverse with
  | nil =>
    rw [htt] at hmem3
  | cons a ds =>
    rw [htt] at hmem3
    show (if a = '-' then
        if ds ≠ [] ∧ ds.all Char.isDigit then some (-(digitsVal ds : Int)) else none
      else if a = '+' then
        if ds ≠ [] ∧ ds.all Char.isDigit then some (digitsVal ds) else none
      else if (a :: ds).all Char.isDigit then some (digitsVal (a :: ds)) else none) = none
    have hcds : c ∈ ds → ¬ ds.all Char.isDigit = true := by
      intro hcd hall
      have := List.all_eq_true.1 hall c hcd
      rw [h1] at this
      cases this
    by_cases ha1 : a = '-'
    · rw [if_pos ha1]
      rcases List.mem_cons.1 hmem3 with hce | hct
      · exact absurd (hce.trans ha1) h3
      · rw [if_neg (fun hcon => hcds hct hcon.2)]
    · rw [if_neg ha1]
      by_cases ha2 : a = '+'
      · rw [if_pos ha2]
        rcases List.mem_cons.1 hmem3 with hce | hct
        · exact absurd (hce.trans ha2) h4
        · rw [if_neg (fun hcon => hcds hct hcon.2)]
      · rw [if_neg ha2]
        rw [if_neg ?hall]
        case hall =>
          intro hall
          have := List.all_eq_true.1 hall c hmem3
          rw [h1] at this
          cases this

theorem format_hours_fixed (h : ℤ) :
    format_hours (format_hours_int h) = format_hours_int h := by
  obtain ⟨p, hp, c, hc, hlet⟩ := format_hours_parts_spec h
  have hmem : c ∈ (format_hours_int h).data := joinSpace_mem hp hc
  have hnone : pyIntOfChars (format_hours_int h).data = none := by
    refine pyIntOfChars_letter_none hmem ?_ ?_ ?_ ?_ <;>
      rcases hlet with rfl | rfl | rfl | rfl <;> decide
  rw [format_hours, hnone]

/-! ### C2: idempotence -/

/-- C2 counterexample: `normalize_size_unit` is not idempotent on every
valid input: the bare byte count `"10238"` (9.998 KB) rounds up to the
band boundary and renders as `"10.00 KB"`, and a second application
re-renders that as `"10.0 KB"`. -/
theorem normalize_not_idempotent :
    normalize_size_unit (normalize_size_unit "10238") ≠ normalize_size_unit "10238" := by
  decide

/-- C2 (amended): `normalize_size_unit` is idempotent on every valid input
(one matching the size pattern or parsing as a float) whose normalized
output does not start with the band-boundary renderings `"10.00 "` or
`"100.0 "` (those arise when rounding lands exactly on a precision-band
limit, as in the `"10238"` counterexample, and need one further
application to settle); `format_hours` is idempotent on its own canonical
output unconditionally. -/
theorem normalize_format_idempotent (s : String) (h : ℤ)
    (hvalid : ¬ (sizeMatchData s.data = none ∧ pyFloatOfChars s.data = none))
    (hp1 : ¬ ("10.00 ".data.isPrefixOf (normalize_size_unit s).data = true))
    (hp2 : ¬ ("100.0 ".data.isPrefixOf (normalize_size_unit s).data = true)) :
    normalize_size_unit (normalize_size_unit s) = normalize_size_unit s
  ∧ format_hours (format_hours_int h) = format_hours_int h := by
  refine ⟨?_, format_hours_fixed h⟩
  cases hm : sizeMatchData s.data with
  | some pr =>
    obtain ⟨w, mu⟩ := pr
    have hne : s ≠ "" := by
      intro hcon
      rw [hcon] at hm
      rw [show ("" : String).data = [] from rfl] at hm
      rw [show sizeMatchData [] = none from rfl] at hm
      cases hm
    have h1 := normalize_of_match hne hm
    obtain ⟨hwden, hwnum⟩ := sizeMatchData_some s.data w mu hm
    have hsden : 0 < (w.scale mu).den := by
      rw [Frac.den_scale]
      exact hwden
    have hx0 : 0 ≤ (w.scale mu).toRat := by
      rw [Frac.toRat_scale]
      have hw0 : 0 ≤ w.toRat := by
        rw [Frac.toRat]
        have hnq : (0 : ℚ) ≤ (w.num : ℚ) := by exact_mod_cast hwnum
        have hdq : (0 : ℚ) ≤ (w.den : ℚ) := by positivity
        exact div_nonneg hnq hdq
      have hmq : (0 : ℚ) ≤ (mu : ℚ) := by positivity
      exact mul_nonneg hw0 hmq
    have h2 : normalize_size_unit s = specFormatSize (w.scale mu).toRat := by
      rw [h1, format_size_eq_spec _ hsden]
    rw [h2] at hp1 hp2 ⊢
    exact normalize_stable hx0 hp1 hp2
  | none =>
    cases hf : pyFloatOfChars s.data with
    | none => exact absurd ⟨hm, hf⟩ hvalid
    | some w =>
      have hne : s ≠ "" := by
        intro hcon
        rw [hcon] at hf
        rw [show ("" : String).data = [] from rfl] at hf
        rw [show pyFloatOfChars [] = none from rfl] at hf
        cases hf
      have h1 := normalize_of_float hne hm hf
      have hwden := pyFloatOfChars_some s.data w hf
      have h2 : normalize_size_unit s = specFormatSize w.toRat := by
        rw [h1, format_size_eq_spec _ hwden]
      by_cases hx0 : 0 ≤ w.toRat
      · rw [h2] at hp1 hp2 ⊢
        exact normalize_stable hx0 hp1 hp2
      · push_neg at hx0
        rw [h2]
        exact normalize_stable_neg hx0

/-- Witness for C2 at the canonical size `"5 GB"` and hour count 26301. -/
theorem normalize_format_idempotent_witness :
    (¬ (sizeMatchData ("5 GB" : String).data = none
        ∧ pyFloatOfChars ("5 GB" : String).data = none))
  ∧ (¬ ("10.00 ".data.isPrefixOf (normalize_size_unit "5 GB").data = true))
  ∧ (¬ ("100.0 ".data.isPrefixOf (normalize_size_unit "5 GB").data = true))
  ∧ (normalize_size_unit (normalize_size_unit "5 GB") = normalize_size_unit "5 GB"
      ∧ format_hours (format_hours_int 26301) = format_hours_int 26301) :=
  ⟨by decide, by decide, by decide,
    normalize_format_idempotent "5 GB" 26301 (by decide) (by decide) (by decide)⟩
